import Mathlib

/-!
Ray-Tracing-Framework: ray/sphere intersection, recursive shading, orbital update.

A shallow embedding of `SphereObj.cpp` and of the shading and animation code of `main.cpp`.

Scalars (`float` in the source) are elements of an arbitrary linearly ordered field `F`
(`ℚ` in the concrete evaluations): sums, products and comparisons are those of numbers.
The functions of `<cmath>` whose values are not field operations (`sqrt`, `cosf`, `sinf`,
`tan`) are the fields of a `CMath F` record passed to every function that calls
them; what a theorem needs of them is a hypothesis of that theorem.

A `float` that is not a number (NaN) is `none` in `Option F`: `intersectNaN` and
`scanLoopNaN` are `SphereObj::intersect` and the scan of `trace` on floats that may be NaN,
and they agree with `intersect` and `scanLoop` on numbers.  The one place where the source
makes a NaN out of numbers is `sqrt(k)` at a negative `k` in `trace` (main.cpp:146-147),
which gives the refraction ray a NaN direction; the call of `trace` on that ray is
`traceNaNRay`.  The rounding of binary32 arithmetic and its infinities are outside of the
model.
-/

namespace RayTracer

/-- The functions of `<cmath>` that the program calls, as a record of plain functions. -/
structure CMath (F : Type) where
  sqrt : F → F
  cosf : F → F
  sinf : F → F
  tan : F → F

/-- Modelled from the spec: `Structures.h`, which declares `Vec3f`, is not part of the
sources; the spec describes it as a 3-component float vector supporting
add/subtract/scale/dot/normalize. -/
structure Vec3 (F : Type) where
  x : F
  y : F
  z : F
deriving DecidableEq, Repr

namespace Vec3

variable {F : Type} [LinearOrderedField F]

/-- Modelled from the spec: `Vec3f` is declared in the missing `Structures.h`.  The vector
`Vec3f(c)`, all three components equal to `c`. -/
def splat (c : F) : Vec3 F := ⟨c, c, c⟩

/-- Modelled from the spec: `Vec3f` is declared in the missing `Structures.h`.
Componentwise sum, `a + b`. -/
def add (a b : Vec3 F) : Vec3 F := ⟨a.x + b.x, a.y + b.y, a.z + b.z⟩

/-- Modelled from the spec: `Vec3f` is declared in the missing `Structures.h`.
Componentwise difference, `a - b`. -/
def sub (a b : Vec3 F) : Vec3 F := ⟨a.x - b.x, a.y - b.y, a.z - b.z⟩

/-- Modelled from the spec: `Vec3f` is declared in the missing `Structures.h`.  Unary
minus, `-a`. -/
def neg (a : Vec3 F) : Vec3 F := ⟨-a.x, -a.y, -a.z⟩

/-- Modelled from the spec: `Vec3f` is declared in the missing `Structures.h`.  Scaling by
a scalar, `a * f`. -/
def scale (a : Vec3 F) (f : F) : Vec3 F := ⟨a.x * f, a.y * f, a.z * f⟩

/-- Modelled from the spec: `Vec3f` is declared in the missing `Structures.h`.
Componentwise product of two vectors (colors), `a * b`. -/
def mul (a b : Vec3 F) : Vec3 F := ⟨a.x * b.x, a.y * b.y, a.z * b.z⟩

/-- Modelled from the spec: `Vec3f` is declared in the missing `Structures.h`.  Dot
product, `a.dot(b)`. -/
def dot (a b : Vec3 F) : F := a.x * b.x + a.y * b.y + a.z * b.z

/-- Modelled from the spec: `Vec3f` is declared in the missing `Structures.h`.  Squared
length, `a.dot(a)`. -/
def length2 (a : Vec3 F) : F := a.x * a.x + a.y * a.y + a.z * a.z

/-- Modelled from the spec: `Vec3f` is declared in the missing `Structures.h`.  Scaling to
unit length in place, `a.normalize()`, by the factor `1 / sqrt(length2)`; a vector of
squared length `0` is left as it is. -/
def normalize (m : CMath F) (a : Vec3 F) : Vec3 F :=
  let nor2 := length2 a
  if nor2 > 0 then
    let invNor := 1 / m.sqrt nor2
    ⟨a.x * invNor, a.y * invNor, a.z * invNor⟩
  else a

end Vec3

/-- The data members of `SphereObj` (`SphereObj.h`).  The pointer members are represented
by `hasParent` (`parentSphere != nullptr`) here and by the shape of a `Body` tree for
`childrenSpheres`; the strings `sphereName` and `parentSphereName` play no part in the
functions below. -/
structure SphereObj (F : Type) where
  center : Vec3 F
  radius : F
  radius2 : F
  surfaceColor : Vec3 F
  emissionColor : Vec3 F
  transparency : F
  reflection : F
  rotationSpeed : F
  startAngle : F
  rootSphere : Bool
  orbitMagnitude : F
  hasParent : Bool
deriving DecidableEq, Repr

section Intersect

variable {F : Type} [LinearOrderedField F]

/-- `SphereObj::intersect` (SphereObj.cpp:28-40) on numbers.  `none` is the
`return false` paths, on which `t0` and `t1` are not written; `some (t0, t1)` is
`return true` with the two values written through the reference parameters.  The sums and
products are exact; `intersectNaN` is the same function on floats that may be NaN. -/
def intersect (m : CMath F) (s : SphereObj F) (rayorig raydir : Vec3 F) : Option (F × F) :=
  let l := Vec3.sub s.center rayorig
  let tca := Vec3.dot l raydir
  if tca < 0 then none
  else
    let d2 := Vec3.dot l l - tca * tca
    if d2 > s.radius2 then none
    else
      let thc := m.sqrt (s.radius2 - d2)
      some (tca - thc, tca + thc)

end Intersect

/-! ## Floats that are not a number

A `float` is `some x` for a number `x`, or `none` for NaN.  An operation with a NaN operand
gives NaN and a comparison with a NaN operand is false. -/

section NotANumber

variable {F : Type} [LinearOrderedField F]

/-- The sum `a + b` of two floats. -/
def nanAdd (a b : Option F) : Option F :=
  match a, b with
  | some x, some y => some (x + y)
  | _, _ => none

/-- The difference `a - b` of two floats. -/
def nanSub (a b : Option F) : Option F :=
  match a, b with
  | some x, some y => some (x - y)
  | _, _ => none

/-- The product `a * b` of two floats. -/
def nanMul (a b : Option F) : Option F :=
  match a, b with
  | some x, some y => some (x * y)
  | _, _ => none

/-- The comparison `a < b` of two floats. -/
def nanLt (a b : Option F) : Bool :=
  match a, b with
  | some x, some y => decide (x < y)
  | _, _ => false

/-- The comparison `a <= b` of two floats. -/
def nanLe (a b : Option F) : Bool :=
  match a, b with
  | some x, some y => decide (x ≤ y)
  | _, _ => false

/-- The function `sqrt` on floats: NaN at NaN and at a negative number. -/
def nanSqrt (m : CMath F) : Option F → Option F
  | some x => if x < 0 then none else some (m.sqrt x)
  | none => none

/-- Modelled from the spec: `Vec3f` is declared in the missing `Structures.h`.
Componentwise difference `a - b` of vectors of floats. -/
def nanVecSub (a b : Vec3 (Option F)) : Vec3 (Option F) :=
  ⟨nanSub a.x b.x, nanSub a.y b.y, nanSub a.z b.z⟩

/-- Modelled from the spec: `Vec3f` is declared in the missing `Structures.h`.  Dot
product `a.dot(b)` of vectors of floats. -/
def nanDot (a b : Vec3 (Option F)) : Option F :=
  nanAdd (nanAdd (nanMul a.x b.x) (nanMul a.y b.y)) (nanMul a.z b.z)

/-- The vector whose three components are NaN. -/
def nanVec : Vec3 (Option F) := ⟨none, none, none⟩

/-- A vector of numbers, as a vector of floats. -/
def Vec3.toNaN (a : Vec3 F) : Vec3 (Option F) := ⟨some a.x, some a.y, some a.z⟩

/-- A sphere whose members are numbers, as a sphere of floats. -/
def SphereObj.toNaN (s : SphereObj F) : SphereObj (Option F) where
  center := s.center.toNaN
  radius := some s.radius
  radius2 := some s.radius2
  surfaceColor := s.surfaceColor.toNaN
  emissionColor := s.emissionColor.toNaN
  transparency := some s.transparency
  reflection := some s.reflection
  rotationSpeed := some s.rotationSpeed
  startAngle := some s.startAngle
  rootSphere := s.rootSphere
  orbitMagnitude := some s.orbitMagnitude
  hasParent := s.hasParent

/-- `SphereObj::intersect` (SphereObj.cpp:28-40) on floats that may be NaN.  `none` is the
`return false` paths; `some (t0, t1)` is `return true` with the two floats written. -/
def intersectNaN (m : CMath F) (s : SphereObj (Option F)) (rayorig raydir : Vec3 (Option F)) :
    Option (Option F × Option F) :=
  let l := nanVecSub s.center rayorig
  let tca := nanDot l raydir
  if nanLt tca (some 0) then none
  else
    let d2 := nanSub (nanDot l l) (nanMul tca tca)
    if nanLt s.radius2 d2 then none
    else
      let thc := nanSqrt m (nanSub s.radius2 d2)
      some (nanSub tca thc, nanAdd tca thc)

/-- The scan for the nearest intersection (main.cpp:87-103), from index `i` on, on floats
that may be NaN.  The state is `tnear` and the pointer `sphere`. -/
def scanLoopNaN (m : CMath F) (rayorig raydir : Vec3 (Option F)) :
    Nat → List (SphereObj (Option F)) → Option F × Option (Nat × SphereObj (Option F)) →
      Option F × Option (Nat × SphereObj (Option F))
  | _, [], acc => acc
  | i, s :: rest, (tnear, sphere) =>
    match intersectNaN m s rayorig raydir with
    | none => scanLoopNaN m rayorig raydir (i + 1) rest (tnear, sphere)
    | some (t0, t1) =>
      let t0 := if nanLt t0 (some 0) then t1 else t0
      if nanLt t0 tnear then scanLoopNaN m rayorig raydir (i + 1) rest (t0, some (i, s))
      else scanLoopNaN m rayorig raydir (i + 1) rest (tnear, sphere)

end NotANumber

/-! ## Orbital update (`SphereObj.cpp`) -/

/-- A body together with the bodies of its `childrenSpheres` vector, each with its own
children: the object graph that `SortSphereHierarchy` links, when it is a tree. -/
inductive Body (F : Type) where
  | node (obj : SphereObj F) (childrenSpheres : List (Body F)) : Body F

/-- The `SphereObj` at the root of a tree. -/
def Body.obj {F : Type} : Body F → SphereObj F
  | .node o _ => o

/-- The children of the root of a tree. -/
def Body.childrenSpheres {F : Type} : Body F → List (Body F)
  | .node _ cs => cs

section Orbit

variable {F : Type} [LinearOrderedField F]

/-- `SphereObj::RotatePointAroundPoint` (SphereObj.cpp:57-65). -/
def RotatePointAroundPoint (m : CMath F) (self : SphereObj F) (sphere1Pos : Vec3 F)
    (radian : F) : Vec3 F :=
  ⟨sphere1Pos.x + self.orbitMagnitude * m.cosf radian,
   sphere1Pos.y + self.orbitMagnitude * m.sinf radian,
   -10⟩

/-- The assignment to `center` at the head of `SphereObj::UpdateChildren`
(SphereObj.cpp:45-48). -/
def updateCenter (m : CMath F) (r : F) (parentPosition : Vec3 F) (self : SphereObj F) :
    SphereObj F :=
  if self.hasParent then
    { self with
      center := RotatePointAroundPoint m self parentPosition
        (self.rotationSpeed * (r + self.startAngle)) }
  else self

mutual

/-- `SphereObj::UpdateChildren` (SphereObj.cpp:43-54): the tree after the call. -/
def UpdateChildren (m : CMath F) (r : F) (parentPosition : Vec3 F) : Body F → Body F
  | .node obj cs =>
    .node (updateCenter m r parentPosition obj)
      (UpdateChildrenEach m r (updateCenter m r parentPosition obj).center cs)

/-- The `for each` loop of `UpdateChildren` over `childrenSpheres`
(SphereObj.cpp:50-53). -/
def UpdateChildrenEach (m : CMath F) (r : F) (center : Vec3 F) : List (Body F) → List (Body F)
  | [] => []
  | sphere :: rest => UpdateChildren m r center sphere :: UpdateChildrenEach m r center rest

end

end Orbit

/-! ## Recursive shading (`main.cpp`) -/

/-- `MAX_RAY_DEPTH` (main.cpp:59). -/
def MAX_RAY_DEPTH : Int := 5

/-- Which of the two secondary rays a nested call of `trace` follows. -/
inductive RayKind where
  | reflection
  | refraction
deriving DecidableEq, Repr

/-- A nested call of `trace`: the secondary ray it follows and the `depth` it receives. -/
structure Call where
  kind : RayKind
  depth : Int
deriving DecidableEq, Repr

section Trace

variable {F : Type} [LinearOrderedField F]

/-- `INFINITY` as main.cpp:53 defines it where the platform is not Linux or macOS
(the program includes `windows.h`): `1e8`. -/
def INFINITY : F := 100000000

/-- `M_PI` (main.cpp:52). -/
def M_PI : F := 3141592653589793 / 1000000000000000

/-- `mix` (main.cpp:65-68). -/
def mix (a b mix : F) : F := b * mix + a * (1 - mix)

/-- The scan for the nearest intersection (main.cpp:87-103), from index `i` on.  The state
is `tnear` and the pointer `sphere`, a pointer being the index and the body it points to. -/
def scanLoop (m : CMath F) (rayorig raydir : Vec3 F) :
    Nat → List (SphereObj F) → F × Option (Nat × SphereObj F) → F × Option (Nat × SphereObj F)
  | _, [], acc => acc
  | i, s :: rest, (tnear, sphere) =>
    match intersect m s rayorig raydir with
    | none => scanLoop m rayorig raydir (i + 1) rest (tnear, sphere)
    | some (t0, t1) =>
      let t0 := if t0 < 0 then t1 else t0
      if t0 < tnear then scanLoop m rayorig raydir (i + 1) rest (t0, some (i, s))
      else scanLoop m rayorig raydir (i + 1) rest (tnear, sphere)

/-- The values of `tnear` and `sphere` after the scan (main.cpp:83-103). -/
def nearestHit (m : CMath F) (rayorig raydir : Vec3 F) (spheres : List (SphereObj F)) :
    F × Option (Nat × SphereObj F) :=
  scanLoop m rayorig raydir 0 spheres (INFINITY, none)

/-- The bias added to the point from which secondary rays start (main.cpp:119). -/
def bias : F := 1 / 10000

/-- The shadow loop over `j` (main.cpp:165-177), from index `j` on: `true` when some body
other than the light `i` intersects the shadow ray, which sets `transmission = 0`. -/
def shadowLoop (m : CMath F) (i : Nat) (orig lightDirection : Vec3 F) :
    Nat → List (SphereObj F) → Bool
  | _, [] => false
  | j, s :: rest =>
    if i ≠ j ∧ (intersect m s orig lightDirection).isSome then true
    else shadowLoop m i orig lightDirection (j + 1) rest

/-- What the light `spheres[i] = light` adds to `surfaceColor` (main.cpp:162-179). -/
def lightTerm (m : CMath F) (spheres : List (SphereObj F)) (sphere : SphereObj F)
    (phit nhit : Vec3 F) (i : Nat) (light : SphereObj F) : Vec3 F :=
  let lightDirection := Vec3.normalize m (Vec3.sub light.center phit)
  let transmission : Vec3 F :=
    if shadowLoop m i (Vec3.add phit (Vec3.scale nhit bias)) lightDirection 0 spheres
    then Vec3.splat 0 else Vec3.splat 1
  Vec3.mul
    (Vec3.scale (Vec3.mul sphere.surfaceColor transmission)
      (max 0 (Vec3.dot nhit lightDirection)))
    light.emissionColor

/-- The loop over the lights of the diffuse branch (main.cpp:157-181), from index `i` on,
with `surfaceColor` as the accumulator. -/
def diffuseLoop (m : CMath F) (spheres : List (SphereObj F)) (sphere : SphereObj F)
    (phit nhit : Vec3 F) : Nat → List (SphereObj F) → Vec3 F → Vec3 F
  | _, [], surfaceColor => surfaceColor
  | i, light :: rest, surfaceColor =>
    if light.emissionColor.x > 0 then
      diffuseLoop m spheres sphere phit nhit (i + 1) rest
        (Vec3.add surfaceColor (lightTerm m spheres sphere phit nhit i light))
    else diffuseLoop m spheres sphere phit nhit (i + 1) rest surfaceColor

/-- The refraction discriminant `k` (main.cpp:144-146). -/
def refractionK (inside : Bool) (nhit raydir : Vec3 F) : F :=
  let ior : F := 11 / 10
  let eta := if inside then ior else 1 / ior
  let cosi := -Vec3.dot nhit raydir
  1 - eta * eta * (1 - cosi * cosi)

/-- The direction `refrdir` of the refraction ray (main.cpp:144-148) when `k` is not
negative.  At `k < 0` the source evaluates the same expression with `sqrt(k)` = NaN, which
makes all three components NaN; `traceStep` does not call this function there. -/
def refractionDir (m : CMath F) (inside : Bool) (nhit raydir : Vec3 F) : Vec3 F :=
  let ior : F := 11 / 10
  let eta := if inside then ior else 1 / ior
  let cosi := -Vec3.dot nhit raydir
  let k := refractionK inside nhit raydir
  Vec3.normalize m (Vec3.add (Vec3.scale raydir eta) (Vec3.scale nhit (eta * cosi - m.sqrt k)))

/-- The normal `nhit` at the hit point and the flag `inside` (main.cpp:113-126). -/
def hitNormal (m : CMath F) (raydir phit center : Vec3 F) : Vec3 F × Bool :=
  let nhit := Vec3.normalize m (Vec3.sub phit center)
  if Vec3.dot raydir nhit > 0 then (Vec3.neg nhit, true) else (nhit, false)

/-- The value of `fresneleffect` (main.cpp:130-133). -/
def fresnel (raydir nhit : Vec3 F) : F :=
  let facingratio := -Vec3.dot raydir nhit
  mix ((1 - facingratio) ^ 3) 1 (1 / 10)

/-- The direction `refldir` of the reflection ray (main.cpp:136-137). -/
def reflectionDir (m : CMath F) (raydir nhit : Vec3 F) : Vec3 F :=
  Vec3.normalize m (Vec3.sub raydir (Vec3.scale (Vec3.scale nhit 2) (Vec3.dot raydir nhit)))

/-- The mix of reflection and refraction assigned to `surfaceColor` (main.cpp:152). -/
def blend (sphere : SphereObj F) (fresneleffect : F) (reflection refraction : Vec3 F) :
    Vec3 F :=
  Vec3.mul
    (Vec3.add (Vec3.scale reflection fresneleffect)
      (Vec3.scale (Vec3.scale refraction (1 - fresneleffect)) sphere.transparency))
    sphere.surfaceColor

/-- A call of `trace` (main.cpp:80-109) on a ray whose direction is NaN in every
component: the scan over the bodies, and the return of `Vec3f(2)`, without a nested call,
when the pointer `sphere` is still null after it.  The shading of a body selected on such a
ray, whose values would be NaN, is not modelled (`none`); the scan selects no body
(`scanLoopNaN_of_nan_direction`). -/
def traceNaNRay (m : CMath F) (rayorig : Vec3 F) (spheres : List (SphereObj F)) :
    Option (Vec3 F × List Call) :=
  match (scanLoopNaN m rayorig.toNaN nanVec 0 (spheres.map SphereObj.toNaN)
      (some INFINITY, none)).2 with
  | none => some (Vec3.splat 2, [])
  | some _ => none

/-- The body of `trace` (main.cpp:80-185), the two nested calls
`trace(origin, direction, spheres, depth + 1)` being `nested origin direction`.  A result
is the returned color and the nested calls of `trace` that were made, in the order they
were made; it is `none` when a nested call gives `none`.

The source has no test on the refraction discriminant `k`.  At `k < 0` its `sqrt(k)` is
NaN, so every component of `refrdir` is NaN (a product or sum with NaN is NaN, and
`normalize` leaves it so), and the nested call `trace(phit - nhit * bias, refrdir, ...)` is
made on that ray: it is `traceNaNRay`. -/
def traceStep (m : CMath F) (nested : Vec3 F → Vec3 F → Option (Vec3 F × List Call))
    (rayorig raydir : Vec3 F) (spheres : List (SphereObj F)) (depth : Int) :
    Option (Vec3 F × List Call) :=
  match nearestHit m rayorig raydir spheres with
  | (_, none) => some (Vec3.splat 2, [])
  | (tnear, some (_, sphere)) =>
    let phit := Vec3.add rayorig (Vec3.scale raydir tnear)
    let nhit := (hitNormal m raydir phit sphere.center).1
    let inside := (hitNormal m raydir phit sphere.center).2
    if (sphere.transparency > 0 ∨ sphere.reflection > 0) ∧ depth < MAX_RAY_DEPTH then
      let fresneleffect := fresnel raydir nhit
      let refldir := reflectionDir m raydir nhit
      match nested (Vec3.add phit (Vec3.scale nhit bias)) refldir with
      | none => none
      | some (reflection, calls1) =>
        if sphere.transparency ≠ 0 then
          if refractionK inside nhit raydir < 0 then
            match traceNaNRay m (Vec3.sub phit (Vec3.scale nhit bias)) spheres with
            | none => none
            | some (refraction, calls2) =>
              some (Vec3.add (blend sphere fresneleffect reflection refraction)
                  sphere.emissionColor,
                (⟨RayKind.reflection, depth + 1⟩ :: calls1)
                  ++ (⟨RayKind.refraction, depth + 1⟩ :: calls2))
          else
            let refrdir := refractionDir m inside nhit raydir
            match nested (Vec3.sub phit (Vec3.scale nhit bias)) refrdir with
            | none => none
            | some (refraction, calls2) =>
              some (Vec3.add (blend sphere fresneleffect reflection refraction)
                  sphere.emissionColor,
                (⟨RayKind.reflection, depth + 1⟩ :: calls1)
                  ++ (⟨RayKind.refraction, depth + 1⟩ :: calls2))
        else
          some (Vec3.add (blend sphere fresneleffect reflection (Vec3.splat 0))
              sphere.emissionColor,
            ⟨RayKind.reflection, depth + 1⟩ :: calls1)
    else
      let surfaceColor := diffuseLoop m spheres sphere phit nhit 0 spheres (Vec3.splat 0)
      some (Vec3.add surfaceColor sphere.emissionColor, [])

/-- `trace` (main.cpp:80-185) with a bound `fuel` on the nesting of calls: `none` when the
bound is reached. -/
def traceFuel (m : CMath F) :
    Nat → Vec3 F → Vec3 F → List (SphereObj F) → Int → Option (Vec3 F × List Call)
  | 0, _, _, _, _ => none
  | fuel + 1, rayorig, raydir, spheres, depth =>
    traceStep m (fun origin direction => traceFuel m fuel origin direction spheres (depth + 1))
      rayorig raydir spheres depth

/-- The nesting bound that a call of `trace` at `depth` needs: one more than the number of
depths from `depth` up to `MAX_RAY_DEPTH`. -/
def fuelFor (depth : Int) : Nat := (MAX_RAY_DEPTH - depth).toNat + 1

/-- `trace` (main.cpp:80-185): the returned color and the nested calls made.
`traceFuel` returns a result at the bound `fuelFor depth`; the background color stands in
the place of the case that it does not. -/
def trace (m : CMath F) (rayorig raydir : Vec3 F) (spheres : List (SphereObj F))
    (depth : Int) : Vec3 F × List Call :=
  (traceFuel m (fuelFor depth) rayorig raydir spheres depth).getD (Vec3.splat 2, [])

end Trace

/-! ## Rendering a frame and scheduling the frames (`main.cpp`) -/

section Render

variable {F : Type} [LinearOrderedField F]

/-- The direction `raydir` of the camera ray of the pixel `(x, y)` (main.cpp:189-192). -/
def cameraRay (m : CMath F) (x y : Nat) (invWidth invHeight angle aspectratio : F) : Vec3 F :=
  let xx := (2 * (((x : F) + 1 / 2) * invWidth) - 1) * angle * aspectratio
  let yy := (1 - 2 * (((y : F) + 1 / 2) * invHeight)) * angle
  Vec3.normalize m ⟨xx, yy, -1⟩

/-- `renderPixel` (main.cpp:187-194): the color stored to `*pixel`. -/
def renderPixel (m : CMath F) (x y : Nat) (invWidth invHeight angle aspectratio : F)
    (spheres : List (SphereObj F)) : Vec3 F :=
  (trace m (Vec3.splat 0) (cameraRay m x y invWidth invHeight angle aspectratio) spheres 0).1

/-- The number of elements of the array `new Vec3f[width * height]` (main.cpp:247), the
product being one of `unsigned` values. -/
def imageSize (width height : Nat) : Nat := (width * height) % 2 ^ 32

/-- `render` (main.cpp:241-263): the colors written through `pixel` by the two loops, in
the order of the writes, which is the content of `image` from index `0` on when it is
passed to `saveSphereImage`. -/
def render (m : CMath F) (spheresToRender : List (SphereObj F)) (width height : Nat) :
    List (Vec3 F) :=
  let invWidth : F := 1 / (width : F)
  let invHeight : F := 1 / (height : F)
  let fov : F := 30
  let aspectratio : F := (width : F) / (height : F)
  let angle := m.tan (M_PI * (1 / 2) * fov / 180)
  (List.range height).flatMap fun y =>
    (List.range width).map fun x =>
      renderPixel m x y invWidth invHeight angle aspectratio spheresToRender

end Render

/-- The increment `r++` of the `float` counter of `PlanetRotation` (main.cpp:432) on a
whole number `r ≤ 2 ^ 24`: exact below `2 ^ 24`, and at `2 ^ 24` the sum `2 ^ 24 + 1` is
rounded back to `2 ^ 24`. -/
def floatIncr (r : Nat) : Nat := if r < 2 ^ 24 then r + 1 else r

/-- The loop of `PlanetRotation` (main.cpp:432-474) run for at most `fuel` iterations
from the counter value `r`: the frame indices `loopIteration` of the jobs passed to
`AddTask` so far, and whether the loop has ended.  The bound `frameTotal - 1` is a `UINT`,
computed modulo `2 ^ 32`; a counter `r ≤ 2 ^ 24` compares with it as a whole number. -/
def planetRotationLoop (frameTotal : Nat) : Nat → Nat → List Nat → List Nat × Bool
  | 0, _, jobs => (jobs, false)
  | fuel + 1, r, jobs =>
    if r ≤ (frameTotal + 2 ^ 32 - 1) % 2 ^ 32 then
      planetRotationLoop frameTotal fuel (floatIncr r) (jobs ++ [r])
    else (jobs, true)

/-- The loop control of `PlanetRotation` (main.cpp:419-475) for the values `length` and
`frameRate` of the configuration (`ConfigurationSettings` is declared in the missing
`Structures.h`), both converted to `UINT`: the frame indices of the jobs submitted within
`fuel` iterations of the loop, and whether the function has returned.  The bodies that a
job carries are not part of this model. -/
def PlanetRotation (fuel : Nat) (length frameRate : Nat) : List Nat × Bool :=
  let videoLength := length % 2 ^ 32
  let FPS := frameRate % 2 ^ 32
  let frameTotal := (videoLength * FPS) % 2 ^ 32
  planetRotationLoop frameTotal fuel 0 []

/-! ## Concrete scalars for evaluation -/

/-- Integer square root, two bits of `n` per unit of fuel. -/
def isqrtFuel : Nat → Nat → Nat
  | 0, _ => 0
  | fuel + 1, n =>
    if n = 0 then 0
    else
      let r := 2 * isqrtFuel fuel (n / 4)
      if (r + 1) * (r + 1) ≤ n then r + 1 else r

/-- Integer square root: `n` units of fuel are more than the bits of `n`. -/
def isqrt (n : Nat) : Nat := isqrtFuel n n

/-- A square root on `ℚ`, exact on squares of rationals: the integer square roots of
numerator and denominator; `0` on negative numbers. -/
def qsqrt (q : ℚ) : ℚ :=
  if q < 0 then 0 else (isqrt q.num.toNat : ℚ) / (isqrt q.den : ℚ)

/-- The `<cmath>` record used in the concrete evaluations: `qsqrt` for `sqrt`; for the
angle `x` the point of the unit circle with half-angle tangent `x / 2`, which is
`(cos x, sin x)` at `0` and close to it for a small `x`. -/
def qmath : CMath ℚ where
  sqrt := qsqrt
  cosf := fun x => (1 - (x / 2) * (x / 2)) / (1 + (x / 2) * (x / 2))
  sinf := fun x => x / (1 + (x / 2) * (x / 2))
  tan := fun x => x / (1 - (x / 2) * (x / 2))

/-- A sphere with the given center and radius, `radius2 = radius * radius`, and every
other member `0` or `false`. -/
def plainSphere (c : Vec3 ℚ) (r : ℚ) : SphereObj ℚ where
  center := c
  radius := r
  radius2 := r * r
  surfaceColor := Vec3.splat 0
  emissionColor := Vec3.splat 0
  transparency := 0
  reflection := 0
  rotationSpeed := 0
  startAngle := 0
  rootSphere := false
  orbitMagnitude := 0
  hasParent := false

/-- A sphere of radius `1` that is fully reflective and fully transparent, with a white
surface. -/
def mirrorSphere (c : Vec3 ℚ) : SphereObj ℚ :=
  { plainSphere c 1 with reflection := 1, transparency := 1, surfaceColor := Vec3.splat 1 }

/-- Two fully reflective and transparent spheres facing each other along the `z` axis, the
origin between them. -/
def facingMirrors : List (SphereObj ℚ) :=
  [mirrorSphere ⟨0, 0, -5⟩, mirrorSphere ⟨0, 0, 5⟩]

/-- A diffuse white sphere of radius `1` at `(0, 0, -5)` that emits `(1, 1, 1)`. -/
def diffuseLight : SphereObj ℚ :=
  { plainSphere ⟨0, 0, -5⟩ 1 with emissionColor := Vec3.splat 1, surfaceColor := Vec3.splat 1 }

/-- The sphere `diffuseLight` made fully reflective. -/
def reflectiveLight : SphereObj ℚ :=
  { diffuseLight with reflection := 1 }

/-- The sphere `diffuseLight` moved to the distance `2e8` along `-z`. -/
def farLight : SphereObj ℚ :=
  { diffuseLight with center := ⟨0, 0, -200000000⟩ }

/-- A light of emission `(1, 1, 1)` at `(0, 3, -10)`, behind `diffuseLight` and beside the
`z` axis. -/
def backLight : SphereObj ℚ :=
  { plainSphere ⟨0, 3, -10⟩ 1 with emissionColor := Vec3.splat 1 }

/-- A second light, of emission `(1/2, 1/2, 1/2)`, at `(0, 0, 5)`. -/
def secondLight : SphereObj ℚ :=
  { plainSphere ⟨0, 0, 5⟩ 1 with
    emissionColor := Vec3.splat (1 / 2), surfaceColor := Vec3.splat 1 }

/-- A white glass sphere of radius `13` at the origin: reflective, half transparent. -/
def glassSphere : SphereObj ℚ :=
  { plainSphere ⟨0, 0, 0⟩ 13 with
    reflection := 1, transparency := 1 / 2, surfaceColor := Vec3.splat 1 }

/-- A light of radius `1` at the origin. -/
def originLight : SphereObj ℚ :=
  { plainSphere ⟨0, 0, 0⟩ 1 with emissionColor := Vec3.splat 1 }

/-- A diffuse white sphere of radius `1` at `(0, 0, -5)`. -/
def diffuseTarget : SphereObj ℚ :=
  { plainSphere ⟨0, 0, -5⟩ 1 with surfaceColor := Vec3.splat 1 }

/-- The light at the origin, the diffuse sphere, and a small sphere directly between
them. -/
def occludedScene : List (SphereObj ℚ) :=
  [originLight, diffuseTarget, plainSphere ⟨0, 0, -2⟩ (1 / 2)]

/-- A light at the origin whose emission is green only, `(0, 1, 0)`. -/
def greenLight : SphereObj ℚ :=
  { plainSphere ⟨0, 0, 0⟩ 1 with emissionColor := ⟨0, 1, 0⟩ }

/-- A grandchild orbiting at distance `1/2`, with rotation speed `0`. -/
def chainGrand : Body ℚ :=
  .node { plainSphere ⟨7, 7, -10⟩ 1 with hasParent := true, orbitMagnitude := 1 / 2 } []

/-- A child orbiting at distance `2`, with rotation speed `1`, parent of `chainGrand`. -/
def chainChild : Body ℚ :=
  .node { plainSphere ⟨3, 0, -10⟩ 1 with
          hasParent := true, orbitMagnitude := 2, rotationSpeed := 1 } [chainGrand]

/-- A root at `(1, 2, -10)`, parent of `chainChild`. -/
def chainRoot : Body ℚ :=
  .node { plainSphere ⟨1, 2, -10⟩ 1 with rootSphere := true } [chainChild]

/-! ## Facts about the concrete scalars -/

theorem qsqrt_nonneg (x : ℚ) : 0 ≤ qsqrt x := by
  unfold qsqrt
  split
  · exact le_refl 0
  · positivity

/-! ## Ray/sphere intersection on floats that may be NaN -/

section IntersectFacts

variable {F : Type} [LinearOrderedField F]

theorem nanMul_none_right (a : Option F) : nanMul a none = none := by
  cases a <;> rfl

theorem nanAdd_none_left (a : Option F) : nanAdd none a = none := rfl

theorem nanDot_nanVec (l : Vec3 (Option F)) : nanDot l nanVec = none := by
  simp only [nanDot, nanVec, nanMul_none_right, nanAdd_none_left]

/-- On numbers `intersectNaN` is `intersect`: no NaN arises, the argument of `sqrt` being
tested before. -/
theorem intersectNaN_toNaN (m : CMath F) (s : SphereObj F) (rayorig raydir : Vec3 F) :
    intersectNaN m s.toNaN rayorig.toNaN raydir.toNaN
      = (intersect m s rayorig raydir).map (fun p => (some p.1, some p.2)) := by
  unfold intersectNaN intersect
  simp only [SphereObj.toNaN, Vec3.toNaN, nanVecSub, nanDot, nanSub, nanMul, nanAdd, nanLt,
    Vec3.sub, Vec3.dot, decide_eq_true_eq, gt_iff_lt]
  split_ifs with h1 h2
  · rfl
  · rfl
  · have h3 : ¬ (s.radius2 - ((s.center.x - rayorig.x) * (s.center.x - rayorig.x)
        + (s.center.y - rayorig.y) * (s.center.y - rayorig.y)
        + (s.center.z - rayorig.z) * (s.center.z - rayorig.z)
        - ((s.center.x - rayorig.x) * raydir.x + (s.center.y - rayorig.y) * raydir.y
            + (s.center.z - rayorig.z) * raydir.z)
          * ((s.center.x - rayorig.x) * raydir.x + (s.center.y - rayorig.y) * raydir.y
            + (s.center.z - rayorig.z) * raydir.z)) < 0) := by
      rw [sub_neg]
      exact h2
    simp only [nanSqrt, if_neg h3, Option.map_some']

/-- On a ray whose direction is NaN, `intersect` returns true and writes NaN to both
distances, whatever the sphere and the origin of the ray: both of its tests compare a NaN
and are false. -/
theorem intersectNaN_of_nan_direction (m : CMath F) (s : SphereObj (Option F))
    (rayorig : Vec3 (Option F)) :
    intersectNaN m s rayorig nanVec = some (none, none) := by
  unfold intersectNaN
  simp only [nanDot_nanVec]
  have h1 : nanLt (none : Option F) (some 0) = false := rfl
  have h2 : nanSub (nanDot (nanVecSub s.center rayorig) (nanVecSub s.center rayorig))
      (nanMul none none) = (none : Option F) := by
    cases nanDot (nanVecSub s.center rayorig) (nanVecSub s.center rayorig) <;> rfl
  have h3 : ∀ a : Option F, nanLt a none = false := fun a => by cases a <;> rfl
  have h4 : ∀ a : Option F, nanSub a none = none := fun a => by cases a <;> rfl
  simp only [h1, h2, h3, h4, nanSqrt, Bool.false_eq_true, if_false]
  rfl

/-- On a ray whose direction is NaN the scan selects no body: it leaves `tnear` and the
pointer `sphere` as they are, so that `trace` returns at `if (!sphere) return Vec3f(2)`. -/
theorem scanLoopNaN_of_nan_direction (m : CMath F) (rayorig : Vec3 (Option F)) :
    ∀ (l : List (SphereObj (Option F))) (i : Nat)
      (acc : Option F × Option (Nat × SphereObj (Option F))),
      scanLoopNaN m rayorig nanVec i l acc = acc
  | [], i, acc => by rw [scanLoopNaN]
  | s :: l, i, (tnear, sphere) => by
    rw [scanLoopNaN, intersectNaN_of_nan_direction]
    have h1 : nanLt (none : Option F) (some 0) = false := rfl
    have h2 : nanLt (none : Option F) tnear = false := rfl
    simp only [h1, h2, Bool.false_eq_true, if_false]
    exact scanLoopNaN_of_nan_direction m rayorig l (i + 1) (tnear, sphere)

/-- On numbers `scanLoopNaN` is `scanLoop`. -/
theorem scanLoopNaN_toNaN (m : CMath F) (rayorig raydir : Vec3 F) :
    ∀ (l : List (SphereObj F)) (i : Nat) (tnear : F) (sphere : Option (Nat × SphereObj F)),
      scanLoopNaN m rayorig.toNaN raydir.toNaN i (l.map SphereObj.toNaN)
          (some tnear, sphere.map (fun p => (p.1, p.2.toNaN)))
        = (some (scanLoop m rayorig raydir i l (tnear, sphere)).1,
            (scanLoop m rayorig raydir i l (tnear, sphere)).2.map (fun p => (p.1, p.2.toNaN)))
  | [], i, tnear, sphere => by simp [scanLoopNaN, scanLoop]
  | s :: l, i, tnear, sphere => by
    rw [List.map_cons, scanLoopNaN, scanLoop, intersectNaN_toNaN]
    rcases intersect m s rayorig raydir with _ | ⟨t0, t1⟩
    · exact scanLoopNaN_toNaN m rayorig raydir l (i + 1) tnear sphere
    · simp only [Option.map_some', nanLt, decide_eq_true_eq]
      by_cases h0 : t0 < 0
      · simp only [h0, if_true]
        by_cases h1 : t1 < tnear
        · simp only [h1, if_true]
          exact scanLoopNaN_toNaN m rayorig raydir l (i + 1) t1 (some (i, s))
        · simp only [h1, if_false]
          exact scanLoopNaN_toNaN m rayorig raydir l (i + 1) tnear sphere
      · simp only [h0, if_false]
        by_cases h1 : t0 < tnear
        · simp only [h1, if_true]
          exact scanLoopNaN_toNaN m rayorig raydir l (i + 1) t0 (some (i, s))
        · simp only [h1, if_false]
          exact scanLoopNaN_toNaN m rayorig raydir l (i + 1) tnear sphere

/-- C1, amended. For every sphere, ray origin and ray direction, with floats that may be
NaN: whenever `intersect` returns true and the two distances it writes are numbers, they
satisfy `t0 ≤ t1` (with a `sqrt` that is non-negative on non-negative numbers). -/
theorem intersectNaN_t0_le_t1 (m : CMath F) (hsqrt : ∀ x : F, 0 ≤ x → 0 ≤ m.sqrt x)
    (s : SphereObj (Option F)) (rayorig raydir : Vec3 (Option F)) (t0 t1 : F)
    (h : intersectNaN m s rayorig raydir = some (some t0, some t1)) : t0 ≤ t1 := by
  unfold intersectNaN at h
  simp only [] at h
  split_ifs at h with h1 h2
  simp only [Option.some.injEq, Prod.mk.injEq] at h
  obtain ⟨h0, h1⟩ := h
  rcases htca : nanDot (nanVecSub s.center rayorig) raydir with _ | tca
  · rw [htca] at h0
    simp [nanSub] at h0
  · rcases hthc : nanSqrt m (nanSub s.radius2
        (nanSub (nanDot (nanVecSub s.center rayorig) (nanVecSub s.center rayorig))
          (nanMul (nanDot (nanVecSub s.center rayorig) raydir)
            (nanDot (nanVecSub s.center rayorig) raydir)))) with _ | thc
    · rw [hthc, htca] at h0
      simp [nanSub] at h0
    · rw [hthc, htca] at h0 h1
      simp only [nanSub, nanAdd, Option.some.injEq] at h0 h1
      have hnn : 0 ≤ thc := by
        rcases harg : nanSub s.radius2
            (nanSub (nanDot (nanVecSub s.center rayorig) (nanVecSub s.center rayorig))
              (nanMul (nanDot (nanVecSub s.center rayorig) raydir)
                (nanDot (nanVecSub s.center rayorig) raydir))) with _ | x
        · rw [harg] at hthc
          simp [nanSqrt] at hthc
        · rw [harg] at hthc
          simp only [nanSqrt] at hthc
          split_ifs at hthc with hneg
          simp only [Option.some.injEq] at hthc
          rw [← hthc]
          exact hsqrt x (not_lt.1 hneg)
      linarith

theorem intersectNaN_t0_le_t1_witness :
    intersectNaN qmath (plainSphere ⟨0, 0, -5⟩ 1).toNaN (Vec3.toNaN ⟨0, 0, 0⟩)
        (Vec3.toNaN ⟨0, 0, -1⟩) = some (some 4, some 6)
      ∧ (4 : ℚ) ≤ 6 :=
  ⟨by decide!,
   intersectNaN_t0_le_t1 qmath (fun x _ => qsqrt_nonneg x) (plainSphere ⟨0, 0, -5⟩ 1).toNaN
     (Vec3.toNaN ⟨0, 0, 0⟩) (Vec3.toNaN ⟨0, 0, -1⟩) 4 6 (by decide!)⟩

/-- C1 as stated fails. The refraction ray that `trace` casts inside the glass sphere at a
negative discriminant starts at `phit - nhit * bias` for `phit = (12, 5, 0)` and
`nhit = (-12/13, -5/13, 0)`, and its direction is NaN: `intersect` returns true on it and
writes `t0 = t1 = NaN`, for which `t0 <= t1` is false. -/
theorem intersectNaN_nan_direction_counterexample :
    intersectNaN qmath glassSphere.toNaN
        (Vec3.toNaN (Vec3.sub ⟨12, 5, 0⟩ (Vec3.scale ⟨-12 / 13, -5 / 13, 0⟩ bias))) nanVec
      = some (none, none)
    ∧ nanLe (none : Option ℚ) none = false := by
  decide!

end IntersectFacts

/-! ## Recursion of `trace` -/

section TraceFacts

variable {F : Type} [LinearOrderedField F]

/-- A call of `trace` on a ray whose direction is NaN returns the background color and
makes no nested call, whatever the bodies and the origin of the ray. -/
theorem traceNaNRay_eq (m : CMath F) (rayorig : Vec3 F) (spheres : List (SphereObj F)) :
    traceNaNRay m rayorig spheres = some (Vec3.splat 2, []) := by
  unfold traceNaNRay
  rw [scanLoopNaN_of_nan_direction]

theorem fuelFor_succ_le (depth : Int) (fuel : Nat) (h : fuelFor depth ≤ fuel + 1)
    (hd : depth < MAX_RAY_DEPTH) : fuelFor (depth + 1) ≤ fuel := by
  unfold fuelFor MAX_RAY_DEPTH at *
  omega

/-- When the nested calls return results whose logged depths lie in `(depth + 1, MAX]`,
so does the body of `trace`, with logged depths in `(depth, MAX]`. -/
theorem traceStep_some (m : CMath F)
    (nested : Vec3 F → Vec3 F → Option (Vec3 F × List Call))
    (rayorig raydir : Vec3 F) (spheres : List (SphereObj F)) (depth : Int)
    (hnested : depth < MAX_RAY_DEPTH → ∀ o d, ∃ color calls, nested o d = some (color, calls)
      ∧ ∀ c ∈ calls, depth + 1 < c.depth ∧ c.depth ≤ MAX_RAY_DEPTH) :
    ∃ color calls, traceStep m nested rayorig raydir spheres depth = some (color, calls)
      ∧ ∀ c ∈ calls, depth < c.depth ∧ c.depth ≤ MAX_RAY_DEPTH := by
  unfold traceStep
  rcases nearestHit m rayorig raydir spheres with ⟨tnear, _ | ⟨idx, sphere⟩⟩
  · exact ⟨_, _, rfl, by simp⟩
  · simp only [traceNaNRay_eq]
    split_ifs with hc ht hk
    · obtain ⟨c1, l1, h1, hl1⟩ := hnested hc.2
        (Vec3.add (Vec3.add rayorig (Vec3.scale raydir tnear))
          (Vec3.scale (hitNormal m raydir (Vec3.add rayorig (Vec3.scale raydir tnear))
            sphere.center).1 bias))
        (reflectionDir m raydir (hitNormal m raydir
          (Vec3.add rayorig (Vec3.scale raydir tnear)) sphere.center).1)
      rw [h1]
      refine ⟨_, _, rfl, ?_⟩
      intro c hcm
      simp only [List.mem_append, List.mem_cons, List.not_mem_nil, or_false] at hcm
      have hd := hc.2
      rcases hcm with (rfl | hcm) | rfl
      · exact ⟨by simp, by simp only; omega⟩
      · have := hl1 c hcm
        exact ⟨by omega, this.2⟩
      · exact ⟨by simp, by simp only; omega⟩
    · obtain ⟨c1, l1, h1, hl1⟩ := hnested hc.2
        (Vec3.add (Vec3.add rayorig (Vec3.scale raydir tnear))
          (Vec3.scale (hitNormal m raydir (Vec3.add rayorig (Vec3.scale raydir tnear))
            sphere.center).1 bias))
        (reflectionDir m raydir (hitNormal m raydir
          (Vec3.add rayorig (Vec3.scale raydir tnear)) sphere.center).1)
      obtain ⟨c2, l2, h2, hl2⟩ := hnested hc.2
        (Vec3.sub (Vec3.add rayorig (Vec3.scale raydir tnear))
          (Vec3.scale (hitNormal m raydir (Vec3.add rayorig (Vec3.scale raydir tnear))
            sphere.center).1 bias))
        (refractionDir m (hitNormal m raydir (Vec3.add rayorig (Vec3.scale raydir tnear))
            sphere.center).2
          (hitNormal m raydir (Vec3.add rayorig (Vec3.scale raydir tnear)) sphere.center).1
          raydir)
      rw [h1]
      simp only []
      rw [h2]
      refine ⟨_, _, rfl, ?_⟩
      intro c hcm
      simp only [List.mem_append, List.mem_cons] at hcm
      have hd := hc.2
      rcases hcm with (rfl | hcm) | rfl | hcm
      · exact ⟨by simp, by simp only; omega⟩
      · have := hl1 c hcm
        exact ⟨by omega, this.2⟩
      · exact ⟨by simp, by simp only; omega⟩
      · have := hl2 c hcm
        exact ⟨by omega, this.2⟩
    · obtain ⟨c1, l1, h1, hl1⟩ := hnested hc.2
        (Vec3.add (Vec3.add rayorig (Vec3.scale raydir tnear))
          (Vec3.scale (hitNormal m raydir (Vec3.add rayorig (Vec3.scale raydir tnear))
            sphere.center).1 bias))
        (reflectionDir m raydir (hitNormal m raydir
          (Vec3.add rayorig (Vec3.scale raydir tnear)) sphere.center).1)
      rw [h1]
      refine ⟨_, _, rfl, ?_⟩
      intro c hcm
      simp only [List.mem_cons] at hcm
      have hd := hc.2
      rcases hcm with rfl | hcm
      · exact ⟨by simp, by simp only; omega⟩
      · have := hl1 c hcm
        exact ⟨by omega, this.2⟩
    · exact ⟨_, _, rfl, by simp⟩

/-- The body of `trace` gives the same result with nested calls that return more. -/
theorem traceStep_mono (m : CMath F)
    (nested nested2 : Vec3 F → Vec3 F → Option (Vec3 F × List Call))
    (hle : ∀ o d r, nested o d = some r → nested2 o d = some r)
    (rayorig raydir : Vec3 F) (spheres : List (SphereObj F)) (depth : Int)
    (r : Vec3 F × List Call) (h : traceStep m nested rayorig raydir spheres depth = some r) :
    traceStep m nested2 rayorig raydir spheres depth = some r := by
  unfold traceStep at h ⊢
  generalize nearestHit m rayorig raydir spheres = hit at h ⊢
  rcases hit with ⟨tnear, _ | ⟨idx, sphere⟩⟩
  · exact h
  · simp only [traceNaNRay_eq] at h ⊢
    split_ifs at h ⊢ with hc ht hk
    · rcases h1 : nested
          (Vec3.add (Vec3.add rayorig (Vec3.scale raydir tnear))
            (Vec3.scale (hitNormal m raydir (Vec3.add rayorig (Vec3.scale raydir tnear))
              sphere.center).1 bias))
          (reflectionDir m raydir (hitNormal m raydir
            (Vec3.add rayorig (Vec3.scale raydir tnear)) sphere.center).1) with _ | ⟨c1, l1⟩
      · rw [h1] at h
        exact absurd h (by simp)
      · rw [h1] at h
        rw [hle _ _ _ h1]
        exact h
    · rcases h1 : nested
          (Vec3.add (Vec3.add rayorig (Vec3.scale raydir tnear))
            (Vec3.scale (hitNormal m raydir (Vec3.add rayorig (Vec3.scale raydir tnear))
              sphere.center).1 bias))
          (reflectionDir m raydir (hitNormal m raydir
            (Vec3.add rayorig (Vec3.scale raydir tnear)) sphere.center).1) with _ | ⟨c1, l1⟩
      · rw [h1] at h
        exact absurd h (by simp)
      · rw [h1] at h
        rw [hle _ _ _ h1]
        simp only [] at h ⊢
        rcases h2 : nested
            (Vec3.sub (Vec3.add rayorig (Vec3.scale raydir tnear))
              (Vec3.scale (hitNormal m raydir (Vec3.add rayorig (Vec3.scale raydir tnear))
                sphere.center).1 bias))
            (refractionDir m (hitNormal m raydir (Vec3.add rayorig (Vec3.scale raydir tnear))
                sphere.center).2
              (hitNormal m raydir (Vec3.add rayorig (Vec3.scale raydir tnear)) sphere.center).1
              raydir) with _ | ⟨c2, l2⟩
        · rw [h2] at h
          exact absurd h (by simp)
        · rw [h2] at h
          rw [hle _ _ _ h2]
          exact h
    · rcases h1 : nested
          (Vec3.add (Vec3.add rayorig (Vec3.scale raydir tnear))
            (Vec3.scale (hitNormal m raydir (Vec3.add rayorig (Vec3.scale raydir tnear))
              sphere.center).1 bias))
          (reflectionDir m raydir (hitNormal m raydir
            (Vec3.add rayorig (Vec3.scale raydir tnear)) sphere.center).1) with _ | ⟨c1, l1⟩
      · rw [h1] at h
        exact absurd h (by simp)
      · rw [h1] at h
        rw [hle _ _ _ h1]
        exact h
    · exact h

/-- With a bound of at least `fuelFor depth`, `traceFuel` returns a result, and every
nested call logged has a depth above `depth` and at most `MAX_RAY_DEPTH`. -/
theorem traceFuel_some (m : CMath F) (spheres : List (SphereObj F)) :
    ∀ (fuel : Nat) (rayorig raydir : Vec3 F) (depth : Int), fuelFor depth ≤ fuel →
      ∃ color calls, traceFuel m fuel rayorig raydir spheres depth = some (color, calls)
        ∧ ∀ c ∈ calls, depth < c.depth ∧ c.depth ≤ MAX_RAY_DEPTH := by
  intro fuel
  induction fuel with
  | zero =>
    intro rayorig raydir depth h
    unfold fuelFor at h
    omega
  | succ fuel ih =>
    intro rayorig raydir depth h
    rw [traceFuel]
    exact traceStep_some m _ rayorig raydir spheres depth
      (fun hd o d => ih o d (depth + 1) (fuelFor_succ_le depth fuel h hd))

/-- A result of `traceFuel` does not change when the bound grows by one. -/
theorem traceFuel_succ_of_some (m : CMath F) (spheres : List (SphereObj F)) :
    ∀ (fuel : Nat) (rayorig raydir : Vec3 F) (depth : Int) (r : Vec3 F × List Call),
      traceFuel m fuel rayorig raydir spheres depth = some r →
      traceFuel m (fuel + 1) rayorig raydir spheres depth = some r := by
  intro fuel
  induction fuel with
  | zero =>
    intro rayorig raydir depth r h
    simp [traceFuel] at h
  | succ fuel ih =>
    intro rayorig raydir depth r h
    rw [traceFuel] at h
    rw [traceFuel]
    exact traceStep_mono m _ _ (fun o d r hr => ih o d (depth + 1) r hr) _ _ _ _ r h

/-- A result of `traceFuel` does not change when the bound grows. -/
theorem traceFuel_le_of_some (m : CMath F) (spheres : List (SphereObj F))
    (rayorig raydir : Vec3 F) (depth : Int) (r : Vec3 F × List Call) (fuel fuel2 : Nat)
    (hle : fuel ≤ fuel2) (h : traceFuel m fuel rayorig raydir spheres depth = some r) :
    traceFuel m fuel2 rayorig raydir spheres depth = some r := by
  induction hle with
  | refl => exact h
  | step _ ih => exact traceFuel_succ_of_some m spheres _ _ _ _ _ ih

/-- With a bound of at least `fuelFor depth`, the result of `traceFuel` is `trace`. -/
theorem traceFuel_eq_trace (m : CMath F) (spheres : List (SphereObj F))
    (rayorig raydir : Vec3 F) (depth : Int) (fuel : Nat) (hfuel : fuelFor depth ≤ fuel) :
    traceFuel m fuel rayorig raydir spheres depth
      = some (trace m rayorig raydir spheres depth) := by
  obtain ⟨c, l, h, _⟩ := traceFuel_some m spheres (fuelFor depth) rayorig raydir depth
    (le_refl _)
  rw [traceFuel_le_of_some m spheres rayorig raydir depth _ _ _ hfuel h]
  unfold trace
  rw [h]
  rfl

/-- C3. For every list of spheres, every ray and every starting depth, `trace` terminates:
with a nesting bound above the number of depths left up to `MAX_RAY_DEPTH` (6 is enough at
any depth `≥ 0`) the recursion returns a result, which is the value of `trace`; and every
nested call of `trace` it makes receives a depth of at most `MAX_RAY_DEPTH`. -/
theorem trace_terminates_depth_le_max (m : CMath F) (spheres : List (SphereObj F))
    (rayorig raydir : Vec3 F) (depth : Int) (fuel : Nat)
    (hfuel : (MAX_RAY_DEPTH - depth).toNat < fuel) :
    traceFuel m fuel rayorig raydir spheres depth
        = some (trace m rayorig raydir spheres depth)
      ∧ ∀ c ∈ (trace m rayorig raydir spheres depth).2, c.depth ≤ MAX_RAY_DEPTH := by
  have hf : fuelFor depth ≤ fuel := hfuel
  refine ⟨traceFuel_eq_trace m spheres rayorig raydir depth fuel hf, ?_⟩
  obtain ⟨c, l, h, hl⟩ := traceFuel_some m spheres fuel rayorig raydir depth hf
  rw [traceFuel_eq_trace m spheres rayorig raydir depth fuel hf] at h
  intro c hc
  rw [Option.some.inj h] at hc
  exact (hl c hc).2

theorem trace_terminates_depth_le_max_witness :
    traceFuel qmath 6 ⟨0, 0, 0⟩ ⟨0, 0, -1⟩ facingMirrors 0
        = some (trace qmath ⟨0, 0, 0⟩ ⟨0, 0, -1⟩ facingMirrors 0)
      ∧ ∀ c ∈ (trace qmath ⟨0, 0, 0⟩ ⟨0, 0, -1⟩ facingMirrors 0).2, c.depth ≤ MAX_RAY_DEPTH :=
  trace_terminates_depth_le_max qmath facingMirrors ⟨0, 0, 0⟩ ⟨0, 0, -1⟩ 0 6 (by decide)

end TraceFacts

/-! ## Orbital update -/

section OrbitFacts

variable {F : Type} [LinearOrderedField F]

/-- Updating the center a second time with the same time and parent position changes
nothing. -/
theorem updateCenter_idem (m : CMath F) (r : F) (p : Vec3 F) (obj : SphereObj F) :
    updateCenter m r p (updateCenter m r p obj) = updateCenter m r p obj := by
  unfold updateCenter
  by_cases h : obj.hasParent = true
  · simp [h, RotatePointAroundPoint]
  · simp [h]

mutual

/-- A second `UpdateChildren` with the same arguments leaves the tree as it is. -/
theorem UpdateChildren_twice (m : CMath F) (r : F) (p : Vec3 F) :
    ∀ b : Body F, UpdateChildren m r p (UpdateChildren m r p b) = UpdateChildren m r p b
  | .node obj cs => by
    rw [UpdateChildren, UpdateChildren, updateCenter_idem,
      UpdateChildrenEach_twice m r (updateCenter m r p obj).center cs]

/-- A second run of the loop over the children leaves them as they are. -/
theorem UpdateChildrenEach_twice (m : CMath F) (r : F) (p : Vec3 F) :
    ∀ cs : List (Body F),
      UpdateChildrenEach m r p (UpdateChildrenEach m r p cs) = UpdateChildrenEach m r p cs
  | [] => by simp [UpdateChildrenEach]
  | c :: cs => by
    rw [UpdateChildrenEach, UpdateChildrenEach, UpdateChildren_twice m r p c,
      UpdateChildrenEach_twice m r p cs]

end

/-- The loop over the children updates the child at every index with the same center. -/
theorem UpdateChildrenEach_getElem? (m : CMath F) (r : F) (p : Vec3 F) :
    ∀ (cs : List (Body F)) (i : Nat),
      (UpdateChildrenEach m r p cs)[i]? = (cs[i]?).map (UpdateChildren m r p)
  | [], i => by simp [UpdateChildrenEach]
  | c :: cs, 0 => by simp [UpdateChildrenEach]
  | c :: cs, i + 1 => by
    simpa [UpdateChildrenEach] using UpdateChildrenEach_getElem? m r p cs i

/-- The center of the root after `UpdateChildren`. -/
theorem UpdateChildren_obj (m : CMath F) (r : F) (p : Vec3 F) (b : Body F) :
    (UpdateChildren m r p b).obj = updateCenter m r p b.obj := by
  cases b
  simp [UpdateChildren, Body.obj]

/-- The children of the root after `UpdateChildren`. -/
theorem UpdateChildren_childrenSpheres (m : CMath F) (r : F) (p : Vec3 F) (b : Body F) :
    (UpdateChildren m r p b).childrenSpheres
      = UpdateChildrenEach m r (UpdateChildren m r p b).obj.center b.childrenSpheres := by
  cases b
  simp [UpdateChildren, Body.obj, Body.childrenSpheres]

/-- C5. For every body tree, time `t` and parent position `p`, a second call of
`UpdateChildren(t, p)` right after the first leaves the tree, hence the center of the body
and of every descendant, as it was after the first call. -/
theorem UpdateChildren_idempotent (m : CMath F) (t : F) (p : Vec3 F) (b : Body F) :
    UpdateChildren m t p (UpdateChildren m t p b) = UpdateChildren m t p b :=
  UpdateChildren_twice m t p b

/-- C6. In a tree on which `UpdateChildren(t, rootPos)` is called, for every chain
root -> child -> grandchild (the child and the grandchild having their parent set): the
child's new center is its orbit offset added to the root's center as it is after the call,
and the grandchild's new center is its orbit offset added to the child's new center; both
lie on the plane `z = -10`. -/
theorem UpdateChildren_chain (m : CMath F) (t : F) (rootPos : Vec3 F) (root child grand : Body F)
    (i j : Nat) (hchild : root.childrenSpheres[i]? = some child)
    (hgrand : child.childrenSpheres[j]? = some grand)
    (hcp : child.obj.hasParent = true) (hgp : grand.obj.hasParent = true) :
    ∃ child2 grand2 : Body F,
      (UpdateChildren m t rootPos root).childrenSpheres[i]? = some child2
      ∧ child2.childrenSpheres[j]? = some grand2
      ∧ child2.obj.center =
          ⟨(UpdateChildren m t rootPos root).obj.center.x
              + child.obj.orbitMagnitude
                * m.cosf (child.obj.rotationSpeed * (t + child.obj.startAngle)),
            (UpdateChildren m t rootPos root).obj.center.y
              + child.obj.orbitMagnitude
                * m.sinf (child.obj.rotationSpeed * (t + child.obj.startAngle)),
            -10⟩
      ∧ grand2.obj.center =
          ⟨child2.obj.center.x
              + grand.obj.orbitMagnitude
                * m.cosf (grand.obj.rotationSpeed * (t + grand.obj.startAngle)),
            child2.obj.center.y
              + grand.obj.orbitMagnitude
                * m.sinf (grand.obj.rotationSpeed * (t + grand.obj.startAngle)),
            -10⟩ := by
  refine ⟨UpdateChildren m t (UpdateChildren m t rootPos root).obj.center child,
    UpdateChildren m t
      (UpdateChildren m t (UpdateChildren m t rootPos root).obj.center child).obj.center grand,
    ?_, ?_, ?_, ?_⟩
  · rw [UpdateChildren_childrenSpheres, UpdateChildrenEach_getElem?, hchild]
    rfl
  · rw [UpdateChildren_childrenSpheres, UpdateChildrenEach_getElem?, hgrand]
    rfl
  · rw [UpdateChildren_obj m t _ child]
    simp [updateCenter, hcp, RotatePointAroundPoint]
  · rw [UpdateChildren_obj m t _ grand]
    simp [updateCenter, hgp, RotatePointAroundPoint]

theorem UpdateChildren_chain_witness :
    ∃ child2 grand2 : Body ℚ,
      (UpdateChildren qmath 2 ⟨1, 2, -10⟩ chainRoot).childrenSpheres[0]? = some child2
      ∧ child2.childrenSpheres[0]? = some grand2
      ∧ child2.obj.center =
          ⟨(UpdateChildren qmath 2 ⟨1, 2, -10⟩ chainRoot).obj.center.x
              + chainChild.obj.orbitMagnitude
                * qmath.cosf (chainChild.obj.rotationSpeed * (2 + chainChild.obj.startAngle)),
            (UpdateChildren qmath 2 ⟨1, 2, -10⟩ chainRoot).obj.center.y
              + chainChild.obj.orbitMagnitude
                * qmath.sinf (chainChild.obj.rotationSpeed * (2 + chainChild.obj.startAngle)),
            -10⟩
      ∧ grand2.obj.center =
          ⟨child2.obj.center.x
              + chainGrand.obj.orbitMagnitude
                * qmath.cosf (chainGrand.obj.rotationSpeed * (2 + chainGrand.obj.startAngle)),
            child2.obj.center.y
              + chainGrand.obj.orbitMagnitude
                * qmath.sinf (chainGrand.obj.rotationSpeed * (2 + chainGrand.obj.startAngle)),
            -10⟩ :=
  UpdateChildren_chain qmath 2 ⟨1, 2, -10⟩ chainRoot chainChild chainGrand 0 0 rfl rfl rfl rfl

/-- The chain `chainRoot -> chainChild -> chainGrand` after one update at time `2`: the
root stays, the child is at a quarter turn around the root, the grandchild at angle `0`
around the new center of the child. -/
theorem UpdateChildren_chain_values :
    (UpdateChildren qmath 2 ⟨1, 2, -10⟩ chainRoot).obj.center = ⟨1, 2, -10⟩
      ∧ ((UpdateChildren qmath 2 ⟨1, 2, -10⟩ chainRoot).childrenSpheres.map
          fun b => b.obj.center) = [⟨1, 4, -10⟩]
      ∧ ((UpdateChildren qmath 2 ⟨1, 2, -10⟩ chainRoot).childrenSpheres.map
          fun b => b.childrenSpheres.map fun g => g.obj.center) = [[⟨3 / 2, 4, -10⟩]] := by
  decide!

end OrbitFacts

/-! ## The value of `trace` -/

section TraceValue

variable {F : Type} [LinearOrderedField F]

theorem Vec3.add_zero_vec (a : Vec3 F) : Vec3.add a ⟨0, 0, 0⟩ = a := by
  simp [Vec3.add]

theorem Vec3.zero_add_vec (a : Vec3 F) : Vec3.add (Vec3.splat 0) a = a := by
  simp [Vec3.add, Vec3.splat]

/-- A light whose direction is opposite to the normal adds nothing. -/
theorem lightTerm_of_dot_nonpos (m : CMath F) (spheres : List (SphereObj F))
    (sphere : SphereObj F) (phit nhit : Vec3 F) (i : Nat) (light : SphereObj F)
    (h : Vec3.dot nhit (Vec3.normalize m (Vec3.sub light.center phit)) ≤ 0) :
    lightTerm m spheres sphere phit nhit i light = ⟨0, 0, 0⟩ := by
  unfold lightTerm
  simp only [max_eq_left h]
  simp [Vec3.mul, Vec3.scale]

/-- The value of `trace` in terms of its body and of the values of the nested calls. -/
theorem trace_unfold (m : CMath F) (rayorig raydir : Vec3 F) (spheres : List (SphereObj F))
    (depth : Int) :
    some (trace m rayorig raydir spheres depth)
      = traceStep m (fun origin direction => some (trace m origin direction spheres (depth + 1)))
          rayorig raydir spheres depth := by
  have h := traceFuel_eq_trace m spheres rayorig raydir depth (fuelFor depth + 1)
    (Nat.le_succ _)
  rw [traceFuel] at h
  rw [← h]
  congr 1
  funext origin direction
  exact traceFuel_eq_trace m spheres origin direction (depth + 1) (fuelFor depth)
    (by unfold fuelFor; omega)

end TraceValue

/-! ## Refraction and shadows -/

section Shading

variable {F : Type} [LinearOrderedField F]

/-- C8 fails in the code. In `trace`, for every hit on a transparent body at a depth below
`MAX_RAY_DEPTH` with a negative discriminant `k`, the refraction term is not skipped: after
the reflection call the refraction call is made at `depth + 1` (on the ray whose direction
is computed with `sqrt(k)`, NaN in every component), it returns the background color
`(2, 2, 2)`, and that color enters the result with the weight
`(1 - fresneleffect) * transparency`. -/
theorem trace_refraction_at_negative_k (m : CMath F) (spheres : List (SphereObj F))
    (rayorig raydir : Vec3 F) (depth : Int) (tnear : F) (idx : Nat) (sphere : SphereObj F)
    (hhit : nearestHit m rayorig raydir spheres = (tnear, some (idx, sphere)))
    (htransparent : sphere.transparency > 0) (hdepth : depth < MAX_RAY_DEPTH)
    (hk : refractionK
        (hitNormal m raydir (Vec3.add rayorig (Vec3.scale raydir tnear)) sphere.center).2
        (hitNormal m raydir (Vec3.add rayorig (Vec3.scale raydir tnear)) sphere.center).1
        raydir < 0) :
    trace m rayorig raydir spheres depth =
      (Vec3.add
        (blend sphere
          (fresnel raydir
            (hitNormal m raydir (Vec3.add rayorig (Vec3.scale raydir tnear)) sphere.center).1)
          (trace m
            (Vec3.add (Vec3.add rayorig (Vec3.scale raydir tnear))
              (Vec3.scale
                (hitNormal m raydir (Vec3.add rayorig (Vec3.scale raydir tnear))
                  sphere.center).1 bias))
            (reflectionDir m raydir
              (hitNormal m raydir (Vec3.add rayorig (Vec3.scale raydir tnear))
                sphere.center).1)
            spheres (depth + 1)).1
          (Vec3.splat 2))
        sphere.emissionColor,
       (⟨RayKind.reflection, depth + 1⟩ ::
          (trace m
            (Vec3.add (Vec3.add rayorig (Vec3.scale raydir tnear))
              (Vec3.scale
                (hitNormal m raydir (Vec3.add rayorig (Vec3.scale raydir tnear))
                  sphere.center).1 bias))
            (reflectionDir m raydir
              (hitNormal m raydir (Vec3.add rayorig (Vec3.scale raydir tnear))
                sphere.center).1)
            spheres (depth + 1)).2)
        ++ [⟨RayKind.refraction, depth + 1⟩]) := by
  have h := trace_unfold m rayorig raydir spheres depth
  unfold traceStep at h
  rw [hhit] at h
  simp only [if_pos (show (sphere.transparency > 0 ∨ sphere.reflection > 0)
      ∧ depth < MAX_RAY_DEPTH from ⟨Or.inl htransparent, hdepth⟩),
    if_pos (ne_of_gt htransparent), if_pos hk, traceNaNRay_eq] at h
  exact Option.some.inj h

theorem trace_refraction_at_negative_k_witness :
    nearestHit qmath ⟨12, 0, 0⟩ ⟨0, 1, 0⟩ [glassSphere] = (5, some (0, glassSphere))
      ∧ hitNormal qmath ⟨0, 1, 0⟩ (Vec3.add ⟨12, 0, 0⟩ (Vec3.scale ⟨0, 1, 0⟩ 5))
          glassSphere.center = (⟨-12 / 13, -5 / 13, 0⟩, true)
      ∧ refractionK true ⟨-12 / 13, -5 / 13, 0⟩ (⟨0, 1, 0⟩ : Vec3 ℚ) = -131 / 4225
      ∧ trace qmath ⟨12, 0, 0⟩ ⟨0, 1, 0⟩ [glassSphere] 4
          = (⟨3033 / 4394, 3033 / 4394, 3033 / 4394⟩,
              [⟨RayKind.reflection, 5⟩, ⟨RayKind.refraction, 5⟩]) :=
  ⟨by decide!, by decide!, by decide!,
    (trace_refraction_at_negative_k qmath [glassSphere] ⟨12, 0, 0⟩ ⟨0, 1, 0⟩ 4
      5 0 glassSphere (by decide!) (by decide!) (by decide!) (by decide!)).trans (by decide!)⟩

/-- The shadow loop finds a body other than the light that intersects the shadow ray. -/
theorem shadowLoop_of_hit (m : CMath F) (i : Nat) (orig lightDirection : Vec3 F)
    (occluder : SphereObj F)
    (hhit : (intersect m occluder orig lightDirection).isSome = true) :
    ∀ (l : List (SphereObj F)) (j0 k : Nat), l[k]? = some occluder → i ≠ j0 + k →
      shadowLoop m i orig lightDirection j0 l = true
  | [], j0, k, hk, _ => by simp at hk
  | b :: l, j0, 0, hk, hne => by
    simp only [List.getElem?_cons_zero, Option.some.injEq] at hk
    rw [shadowLoop, hk, if_pos ⟨by simpa using hne, hhit⟩]
  | b :: l, j0, k + 1, hk, hne => by
    rw [shadowLoop]
    split_ifs
    · rfl
    · exact shadowLoop_of_hit m i orig lightDirection occluder hhit l (j0 + 1) k
        (by simpa using hk) (by omega)

/-- C10. In the diffuse branch of `trace`, for every light `spheres[i]`: if the shadow ray
cast from the biased hit point `phit + nhit * bias` toward the center of the light
intersects a body `spheres[j]` other than that light, the light's term is zero, and adding
it leaves `surfaceColor`, hence the returned color, as it is. -/
theorem lightTerm_zero_of_occluded (m : CMath F) (spheres : List (SphereObj F))
    (sphere : SphereObj F) (phit nhit : Vec3 F) (i j : Nat) (light occluder : SphereObj F)
    (hj : spheres[j]? = some occluder) (hij : i ≠ j)
    (hhit : (intersect m occluder (Vec3.add phit (Vec3.scale nhit bias))
      (Vec3.normalize m (Vec3.sub light.center phit))).isSome = true) :
    lightTerm m spheres sphere phit nhit i light = ⟨0, 0, 0⟩
      ∧ ∀ surfaceColor : Vec3 F,
          Vec3.add surfaceColor (lightTerm m spheres sphere phit nhit i light)
            = surfaceColor := by
  have hzero : lightTerm m spheres sphere phit nhit i light = ⟨0, 0, 0⟩ := by
    unfold lightTerm
    simp only [shadowLoop_of_hit m i _ _ occluder hhit spheres 0 j hj (by omega), if_true]
    simp [Vec3.mul, Vec3.scale, Vec3.splat]
  exact ⟨hzero, fun c => by rw [hzero, Vec3.add_zero_vec]⟩

theorem lightTerm_zero_of_occluded_witness :
    lightTerm qmath occludedScene diffuseTarget ⟨0, 0, -4⟩ ⟨0, 0, 1⟩ 0 originLight = ⟨0, 0, 0⟩
      ∧ ∀ surfaceColor : Vec3 ℚ,
          Vec3.add surfaceColor
              (lightTerm qmath occludedScene diffuseTarget ⟨0, 0, -4⟩ ⟨0, 0, 1⟩ 0 originLight)
            = surfaceColor :=
  lightTerm_zero_of_occluded qmath occludedScene diffuseTarget ⟨0, 0, -4⟩ ⟨0, 0, 1⟩ 0 2
    originLight (plainSphere ⟨0, 0, -2⟩ (1 / 2)) (by decide!) (by decide) (by decide!)

/-- A ray along `-z` from `(0, 0, -3)` meets the diffuse sphere at `(0, 0, -4)`, facing the
light at the origin: `trace` returns the light received, `(1, 1, 1)`, without the third
sphere, and `(0, 0, 0)` with the third sphere between the light and the hit point. -/
theorem trace_occluded_example :
    trace qmath ⟨0, 0, -3⟩ ⟨0, 0, -1⟩ [originLight, diffuseTarget] 0 = (⟨1, 1, 1⟩, [])
      ∧ trace qmath ⟨0, 0, -3⟩ ⟨0, 0, -1⟩ occludedScene 0 = (⟨0, 0, 0⟩, []) := by
  decide!

end Shading

/-! ## The frame buffer -/

section RenderFacts

variable {F : Type} [LinearOrderedField F]

/-- The two nested loops write `h * w` values. -/
theorem rows_length {α : Type} (f : Nat → Nat → α) (w : Nat) :
    ∀ h : Nat, ((List.range h).flatMap fun y => (List.range w).map (f y)).length = h * w
  | 0 => by simp
  | h + 1 => by
    rw [List.range_succ, List.flatMap_append, List.length_append, rows_length f w h]
    simp [Nat.succ_mul]

/-- The two nested loops write the value for `(x, y)` at position `y * w + x`. -/
theorem rows_getElem? {α : Type} (f : Nat → Nat → α) (w : Nat) :
    ∀ (h y x : Nat), y < h → x < w →
      ((List.range h).flatMap fun y => (List.range w).map (f y))[y * w + x]? = some (f y x)
  | 0, y, x, hy, _ => by omega
  | h + 1, y, x, hy, hx => by
    rw [List.range_succ, List.flatMap_append]
    by_cases hyh : y < h
    · have hlt : y * w + x < ((List.range h).flatMap fun y => (List.range w).map (f y)).length := by
        rw [rows_length f w h]
        calc y * w + x < y * w + w := by omega
          _ = (y + 1) * w := by rw [Nat.succ_mul]
          _ ≤ h * w := Nat.mul_le_mul_right w hyh
      rw [List.getElem?_append_left hlt]
      exact rows_getElem? f w h y x hyh hx
    · have hyeq : y = h := by omega
      subst hyeq
      have hge : ((List.range y).flatMap fun y => (List.range w).map (f y)).length ≤ y * w + x := by
        rw [rows_length f w y]
        omega
      rw [List.getElem?_append_right hge, rows_length f w y]
      simp [List.getElem?_range hx]

/-- A ray that no body stops returns the background color. -/
theorem trace_background (m : CMath F) (rayorig raydir : Vec3 F)
    (spheres : List (SphereObj F)) (depth : Int)
    (hmiss : (nearestHit m rayorig raydir spheres).2 = none) :
    trace m rayorig raydir spheres depth = (Vec3.splat 2, []) := by
  have h := trace_unfold m rayorig raydir spheres depth
  unfold traceStep at h
  rcases hn : nearestHit m rayorig raydir spheres with ⟨tnear, _ | ⟨idx, sphere⟩⟩
  · rw [hn] at h
    exact Option.some.inj h
  · rw [hn] at hmiss
    exact absurd hmiss (by simp)

/-- C9, amended. For every body snapshot, and every width and height whose product is
below `2 ^ 32`: the frame buffer holds exactly `width * height` pixels, as many as are
allocated, in row-major order, pixel `(x, y)` at index `y * width + x`, and the pixel
stored is the color that `trace` returns at depth 0 for the camera ray of `(x, y)` from
the origin, which is the background color `(2, 2, 2)` when the ray meets no body. -/
theorem render_row_major (m : CMath F) (spheresToRender : List (SphereObj F))
    (width height : Nat) (hsize : width * height < 2 ^ 32) :
    (render m spheresToRender width height).length = width * height
      ∧ imageSize width height = width * height
      ∧ ∀ x y : Nat, x < width → y < height →
          (render m spheresToRender width height)[y * width + x]?
              = some (trace m (Vec3.splat 0)
                  (cameraRay m x y (1 / (width : F)) (1 / (height : F))
                    (m.tan (M_PI * (1 / 2) * 30 / 180)) ((width : F) / (height : F)))
                  spheresToRender 0).1
            ∧ ((nearestHit m (Vec3.splat 0)
                  (cameraRay m x y (1 / (width : F)) (1 / (height : F))
                    (m.tan (M_PI * (1 / 2) * 30 / 180)) ((width : F) / (height : F)))
                  spheresToRender).2 = none →
                (render m spheresToRender width height)[y * width + x]?
                  = some (Vec3.splat 2)) := by
  refine ⟨?_, Nat.mod_eq_of_lt hsize, ?_⟩
  · unfold render
    simp only []
    rw [rows_length, Nat.mul_comm]
  · intro x y hx hy
    have hpix : (render m spheresToRender width height)[y * width + x]?
        = some (trace m (Vec3.splat 0)
            (cameraRay m x y (1 / (width : F)) (1 / (height : F))
              (m.tan (M_PI * (1 / 2) * 30 / 180)) ((width : F) / (height : F)))
            spheresToRender 0).1 := by
      unfold render
      simp only []
      rw [rows_getElem? _ width height y x hy hx]
      rfl
    refine ⟨hpix, fun hmiss => ?_⟩
    rw [hpix, trace_background m _ _ _ 0 hmiss]

theorem render_row_major_witness :
    (render qmath [diffuseLight] 3 3).length = 3 * 3
      ∧ imageSize 3 3 = 3 * 3
      ∧ ∀ x y : Nat, x < 3 → y < 3 →
          (render qmath [diffuseLight] 3 3)[y * 3 + x]?
              = some (trace qmath (Vec3.splat 0)
                  (cameraRay qmath x y (1 / ((3 : Nat) : ℚ)) (1 / ((3 : Nat) : ℚ))
                    (qmath.tan (M_PI * (1 / 2) * 30 / 180)) (((3 : Nat) : ℚ) / ((3 : Nat) : ℚ)))
                  [diffuseLight] 0).1
            ∧ ((nearestHit qmath (Vec3.splat 0)
                  (cameraRay qmath x y (1 / ((3 : Nat) : ℚ)) (1 / ((3 : Nat) : ℚ))
                    (qmath.tan (M_PI * (1 / 2) * 30 / 180)) (((3 : Nat) : ℚ) / ((3 : Nat) : ℚ)))
                  [diffuseLight]).2 = none →
                (render qmath [diffuseLight] 3 3)[y * 3 + x]? = some (Vec3.splat 2)) :=
  render_row_major qmath [diffuseLight] 3 3 (by decide)

/-- C9 as stated fails. In the 3 x 3 frame of a scene with one sphere, the camera ray of
the corner pixel `(0, 0)` meets no body, and the pixel stored at index 0 is the background
color `(2, 2, 2)`, whose channels are above 1.  And for a width and a height of `65536`
the array allocated has `0` elements, not `width * height`. -/
theorem render_channel_above_one_counterexample :
    render qmath [diffuseLight] 3 3
        = [⟨2, 2, 2⟩, ⟨1, 1, 1⟩, ⟨2, 2, 2⟩,
           ⟨1, 1, 1⟩, ⟨1, 1, 1⟩, ⟨1, 1, 1⟩,
           ⟨2, 2, 2⟩, ⟨1, 1, 1⟩, ⟨2, 2, 2⟩]
      ∧ ¬ ((2 : ℚ) ≤ 1)
      ∧ imageSize 65536 65536 = 0 ∧ imageSize 65536 65536 ≠ 65536 * 65536 := by
  decide!

end RenderFacts

/-! ## The frame loop -/

/-- The counter stays at most `2 ^ 24`. -/
theorem floatIncr_le (r : Nat) (h : r ≤ 2 ^ 24) : floatIncr r ≤ 2 ^ 24 := by
  unfold floatIncr
  split_ifs <;> omega

/-- With `frameTotal = 0` the loop uses up any number of iterations, one job each. -/
theorem planetRotationLoop_zero :
    ∀ (fuel r : Nat) (jobs : List Nat), r ≤ 2 ^ 24 →
      (planetRotationLoop 0 fuel r jobs).2 = false
        ∧ (planetRotationLoop 0 fuel r jobs).1.length = jobs.length + fuel
  | 0, r, jobs, _ => by simp [planetRotationLoop]
  | fuel + 1, r, jobs, h => by
    have hb : r ≤ (0 + 2 ^ 32 - 1) % 2 ^ 32 := by
      norm_num
      omega
    rw [planetRotationLoop, if_pos hb]
    obtain ⟨h1, h2⟩ := planetRotationLoop_zero fuel (floatIncr r) (jobs ++ [r])
      (floatIncr_le r h)
    refine ⟨h1, ?_⟩
    rw [h2, List.length_append, List.length_singleton]
    omega

/-- With `1 ≤ frameTotal ≤ 2 ^ 24` the loop submits the indices from `r` up to
`frameTotal - 1` and ends. -/
theorem planetRotationLoop_frames (n : Nat) (hpos : 0 < n) (hle : n ≤ 2 ^ 24) :
    ∀ (fuel r : Nat) (jobs : List Nat), r ≤ n → n - r < fuel →
      planetRotationLoop n fuel r jobs = (jobs ++ List.range' r (n - r), true)
  | 0, r, jobs, _, hf => by omega
  | fuel + 1, r, jobs, hr, hf => by
    have hb : (n + 2 ^ 32 - 1) % 2 ^ 32 = n - 1 := by omega
    rw [planetRotationLoop, hb]
    by_cases hrn : r ≤ n - 1
    · have hr24 : r < 2 ^ 24 := by omega
      rw [if_pos hrn]
      have hincr : floatIncr r = r + 1 := by
        unfold floatIncr
        rw [if_pos hr24]
      rw [hincr, planetRotationLoop_frames n hpos hle fuel (r + 1) (jobs ++ [r])
        (by omega) (by omega)]
      have hsplit : n - r = (n - (r + 1)) + 1 := by omega
      rw [hsplit, List.range'_succ, List.append_assoc]
      rfl
    · rw [if_neg hrn]
      have hz : n - r = 0 := by omega
      rw [hz]
      simp

/-- For a duration and a frame rate whose product lies between 1 and `2 ^ 24`,
`PlanetRotation` returns after submitting the frames `0, ..., length * frameRate - 1`. -/
theorem PlanetRotation_frames (length frameRate fuel : Nat) (hpos : 0 < length * frameRate)
    (hle : length * frameRate ≤ 2 ^ 24) (hfuel : length * frameRate < fuel) :
    PlanetRotation fuel length frameRate = (List.range (length * frameRate), true) := by
  have hl : 0 < length := Nat.pos_of_mul_pos_right hpos
  have hf : 0 < frameRate := Nat.pos_of_mul_pos_left hpos
  have hl2 : length ≤ length * frameRate := Nat.le_mul_of_pos_right length hf
  have hf2 : frameRate ≤ length * frameRate := Nat.le_mul_of_pos_left frameRate hl
  unfold PlanetRotation
  simp only []
  rw [Nat.mod_eq_of_lt (show length < 2 ^ 32 by omega),
    Nat.mod_eq_of_lt (show frameRate < 2 ^ 32 by omega),
    Nat.mod_eq_of_lt (show length * frameRate < 2 ^ 32 by omega),
    planetRotationLoop_frames _ hpos hle fuel 0 [] (Nat.zero_le _) (by omega)]
  simp [List.range_eq_range']

/-- C7 at a duration of 0 seconds and 10 frames per second, where `length * frameRate = 0`
and the claim has no job submitted: the loop of `PlanetRotation` has not ended after any
number `fuel` of iterations, and has submitted one job in each of them. -/
theorem PlanetRotation_zero_frames_runs_on (fuel : Nat) :
    (PlanetRotation fuel 0 10).2 = false ∧ (PlanetRotation fuel 0 10).1.length = fuel := by
  have h := planetRotationLoop_zero fuel 0 [] (by norm_num)
  simpa [PlanetRotation] using h

/-- The frames of a run of 2 seconds at 10 frames per second, and the first jobs of a run
of 0 seconds. -/
theorem PlanetRotation_examples :
    PlanetRotation 21 2 10 = (List.range 20, true)
      ∧ PlanetRotation 3 0 10 = ([0, 1, 2], false) := by
  decide

/-! ## The number of calls of `trace` -/

section CallCount

variable {F : Type} [LinearOrderedField F]

/-- The body of `trace` makes no nested call at `MAX_RAY_DEPTH` or deeper, and otherwise
at most two, each with the nested calls of its own. -/
theorem traceStep_calls_le (m : CMath F)
    (nested : Vec3 F → Vec3 F → Option (Vec3 F × List Call))
    (rayorig raydir : Vec3 F) (spheres : List (SphereObj F)) (depth : Int) (bound : Nat)
    (hnested : ∀ o d r, nested o d = some r → r.2.length ≤ bound)
    (r : Vec3 F × List Call) (h : traceStep m nested rayorig raydir spheres depth = some r) :
    (¬ depth < MAX_RAY_DEPTH → r.2 = []) ∧ r.2.length ≤ 2 * bound + 2 := by
  unfold traceStep at h
  generalize nearestHit m rayorig raydir spheres = hit at h
  rcases hit with ⟨tnear, _ | ⟨idx, sphere⟩⟩
  · rw [← Option.some.inj h]
    simp
  · simp only [traceNaNRay_eq] at h
    split_ifs at h with hc ht hk
    · rcases h1 : nested
          (Vec3.add (Vec3.add rayorig (Vec3.scale raydir tnear))
            (Vec3.scale (hitNormal m raydir (Vec3.add rayorig (Vec3.scale raydir tnear))
              sphere.center).1 bias))
          (reflectionDir m raydir (hitNormal m raydir
            (Vec3.add rayorig (Vec3.scale raydir tnear)) sphere.center).1) with _ | ⟨c1, l1⟩
      · rw [h1] at h
        exact absurd h (by simp)
      · rw [h1] at h
        have hl1 := hnested _ _ _ h1
        rw [← Option.some.inj h]
        refine ⟨fun hd => absurd hc.2 hd, ?_⟩
        simp only [List.length_append, List.length_cons, List.length_nil] at hl1 ⊢
        omega
    · rcases h1 : nested
          (Vec3.add (Vec3.add rayorig (Vec3.scale raydir tnear))
            (Vec3.scale (hitNormal m raydir (Vec3.add rayorig (Vec3.scale raydir tnear))
              sphere.center).1 bias))
          (reflectionDir m raydir (hitNormal m raydir
            (Vec3.add rayorig (Vec3.scale raydir tnear)) sphere.center).1) with _ | ⟨c1, l1⟩
      · rw [h1] at h
        exact absurd h (by simp)
      · rw [h1] at h
        simp only [] at h
        rcases h2 : nested
            (Vec3.sub (Vec3.add rayorig (Vec3.scale raydir tnear))
              (Vec3.scale (hitNormal m raydir (Vec3.add rayorig (Vec3.scale raydir tnear))
                sphere.center).1 bias))
            (refractionDir m (hitNormal m raydir (Vec3.add rayorig (Vec3.scale raydir tnear))
                sphere.center).2
              (hitNormal m raydir (Vec3.add rayorig (Vec3.scale raydir tnear)) sphere.center).1
              raydir) with _ | ⟨c2, l2⟩
        · rw [h2] at h
          exact absurd h (by simp)
        · rw [h2] at h
          have hl1 := hnested _ _ _ h1
          have hl2 := hnested _ _ _ h2
          rw [← Option.some.inj h]
          refine ⟨fun hd => absurd hc.2 hd, ?_⟩
          simp only [List.length_append, List.length_cons] at hl1 hl2 ⊢
          omega
    · rcases h1 : nested
          (Vec3.add (Vec3.add rayorig (Vec3.scale raydir tnear))
            (Vec3.scale (hitNormal m raydir (Vec3.add rayorig (Vec3.scale raydir tnear))
              sphere.center).1 bias))
          (reflectionDir m raydir (hitNormal m raydir
            (Vec3.add rayorig (Vec3.scale raydir tnear)) sphere.center).1) with _ | ⟨c1, l1⟩
      · rw [h1] at h
        exact absurd h (by simp)
      · rw [h1] at h
        have hl1 := hnested _ _ _ h1
        rw [← Option.some.inj h]
        refine ⟨fun hd => absurd hc.2 hd, ?_⟩
        simp only [List.length_cons] at hl1 ⊢
        omega
    · rw [← Option.some.inj h]
      simp

/-- A call at `depth` makes at most `2 ^ fuelFor depth - 2` nested calls in all. -/
theorem traceFuel_calls_le (m : CMath F) (spheres : List (SphereObj F)) :
    ∀ (fuel : Nat) (rayorig raydir : Vec3 F) (depth : Int) (r : Vec3 F × List Call),
      traceFuel m fuel rayorig raydir spheres depth = some r →
      r.2.length + 2 ≤ 2 ^ fuelFor depth := by
  intro fuel
  induction fuel with
  | zero =>
    intro rayorig raydir depth r h
    simp [traceFuel] at h
  | succ fuel ih =>
    intro rayorig raydir depth r h
    rw [traceFuel] at h
    have hb := traceStep_calls_le m _ rayorig raydir spheres depth
      (2 ^ fuelFor (depth + 1) - 2)
      (fun o d r2 hr2 => by
        have := ih o d (depth + 1) r2 hr2
        omega) r h
    by_cases hd : depth < MAX_RAY_DEPTH
    · have hf : fuelFor depth = fuelFor (depth + 1) + 1 := by
        unfold fuelFor MAX_RAY_DEPTH at *
        omega
      have hpos : 2 ≤ 2 ^ fuelFor (depth + 1) := by
        have : fuelFor (depth + 1) = (MAX_RAY_DEPTH - (depth + 1)).toNat + 1 := rfl
        rw [this, pow_succ]
        have := Nat.one_le_two_pow (n := (MAX_RAY_DEPTH - (depth + 1)).toNat)
        omega
      rw [hf, pow_succ]
      omega
    · rw [hb.1 hd]
      have : fuelFor depth = (MAX_RAY_DEPTH - depth).toNat + 1 := rfl
      rw [this, pow_succ]
      have := Nat.one_le_two_pow (n := (MAX_RAY_DEPTH - depth).toNat)
      simp only [List.length_nil]
      omega

/-- C15. For every list of bodies and every primary ray traced at depth 0, the number of
invocations of `trace`, the primary call and all nested reflection and refraction calls,
is at most `2 ^ (MAX_RAY_DEPTH + 1) = 64`. -/
theorem trace_invocations_le (m : CMath F) (spheres : List (SphereObj F))
    (rayorig raydir : Vec3 F) :
    1 + (trace m rayorig raydir spheres 0).2.length ≤ 2 ^ (MAX_RAY_DEPTH + 1).toNat
      ∧ 2 ^ (MAX_RAY_DEPTH + 1).toNat = 64 := by
  have h := traceFuel_calls_le m spheres (fuelFor 0) rayorig raydir 0 _
    (traceFuel_eq_trace m spheres rayorig raydir 0 (fuelFor 0) (le_refl _))
  have h6 : fuelFor 0 = 6 := by decide
  have h64 : 2 ^ (MAX_RAY_DEPTH + 1).toNat = 64 := by decide
  rw [h6] at h
  refine ⟨?_, h64⟩
  rw [h64]
  omega

/-- The primary ray between the two facing mirror spheres makes 38 nested calls, 39
invocations in all. -/
theorem trace_invocations_example :
    1 + (trace qmath ⟨0, 0, 0⟩ ⟨0, 0, -1⟩ facingMirrors 0).2.length = 39 := by
  decide!

end CallCount

/-! ## The lights of the diffuse branch -/

section DiffuseLights

variable {F : Type} [LinearOrderedField F]

theorem Vec3.add_assoc_vec (a b c : Vec3 F) :
    Vec3.add (Vec3.add a b) c = Vec3.add a (Vec3.add b c) := by
  simp [Vec3.add, add_assoc]

/-- The loop over the lights adds what it adds to whatever `surfaceColor` it starts from. -/
theorem diffuseLoop_acc (m : CMath F) (spheres : List (SphereObj F)) (sphere : SphereObj F)
    (phit nhit : Vec3 F) :
    ∀ (l : List (SphereObj F)) (i : Nat) (acc : Vec3 F),
      diffuseLoop m spheres sphere phit nhit i l acc
        = Vec3.add acc (diffuseLoop m spheres sphere phit nhit i l (Vec3.splat 0))
  | [], i, acc => by
    simp [diffuseLoop, Vec3.add, Vec3.splat]
  | b :: l, i, acc => by
    rw [diffuseLoop, diffuseLoop]
    split_ifs
    · rw [diffuseLoop_acc m spheres sphere phit nhit l (i + 1)
          (Vec3.add acc (lightTerm m spheres sphere phit nhit i b)),
        diffuseLoop_acc m spheres sphere phit nhit l (i + 1)
          (Vec3.add (Vec3.splat 0) (lightTerm m spheres sphere phit nhit i b)),
        Vec3.zero_add_vec, Vec3.add_assoc_vec]
    · exact diffuseLoop_acc m spheres sphere phit nhit l (i + 1) acc

/-- The loop over the lights, run over two lists in a row. -/
theorem diffuseLoop_append (m : CMath F) (spheres : List (SphereObj F)) (sphere : SphereObj F)
    (phit nhit : Vec3 F) (l2 : List (SphereObj F)) :
    ∀ (l1 : List (SphereObj F)) (i : Nat) (acc : Vec3 F),
      diffuseLoop m spheres sphere phit nhit i (l1 ++ l2) acc
        = diffuseLoop m spheres sphere phit nhit (i + l1.length) l2
            (diffuseLoop m spheres sphere phit nhit i l1 acc)
  | [], i, acc => by simp [diffuseLoop]
  | b :: l1, i, acc => by
    rw [List.cons_append, diffuseLoop, diffuseLoop]
    have hi : i + (b :: l1).length = i + 1 + l1.length := by
      simp only [List.length_cons]
      omega
    rw [hi]
    split_ifs
    · exact diffuseLoop_append m spheres sphere phit nhit l2 l1 (i + 1) _
    · exact diffuseLoop_append m spheres sphere phit nhit l2 l1 (i + 1) _

/-- The shadow loop finds nothing exactly when no body other than the light `i`
intersects the shadow ray. -/
theorem shadowLoop_eq_false_iff (m : CMath F) (i : Nat) (orig lightDirection : Vec3 F) :
    ∀ (l : List (SphereObj F)) (j0 : Nat),
      shadowLoop m i orig lightDirection j0 l = false ↔
        ∀ k b, l[k]? = some b → i ≠ j0 + k → intersect m b orig lightDirection = none
  | [], j0 => by simp [shadowLoop]
  | s :: l, j0 => by
    rw [shadowLoop]
    constructor
    · intro h k b hk hne
      split_ifs at h with hc
      have ih := (shadowLoop_eq_false_iff m i orig lightDirection l (j0 + 1)).1 h
      cases k with
      | zero =>
        simp only [List.getElem?_cons_zero, Option.some.injEq] at hk
        subst hk
        have hne0 : i ≠ j0 := by simpa using hne
        by_contra hsome
        exact hc ⟨hne0, Option.ne_none_iff_isSome.1 hsome⟩
      | succ k =>
        exact ih k b (by simpa using hk) (by omega)
    · intro h
      have hhead : ¬ (i ≠ j0 ∧ (intersect m s orig lightDirection).isSome = true) := by
        rintro ⟨hne, hsome⟩
        have := h 0 s (by simp) (by simpa using hne)
        rw [this] at hsome
        simp at hsome
      rw [if_neg hhead]
      exact (shadowLoop_eq_false_iff m i orig lightDirection l (j0 + 1)).2
        (fun k b hk hne => h (k + 1) b (by simpa using hk) (by omega))

/-- The term of a light whose shadow ray is not stopped. -/
theorem lightTerm_unoccluded (m : CMath F) (spheres : List (SphereObj F))
    (sphere : SphereObj F) (phit nhit : Vec3 F) (i : Nat) (light : SphereObj F)
    (h : shadowLoop m i (Vec3.add phit (Vec3.scale nhit bias))
      (Vec3.normalize m (Vec3.sub light.center phit)) 0 spheres = false) :
    lightTerm m spheres sphere phit nhit i light
      = Vec3.mul
          (Vec3.scale sphere.surfaceColor
            (max 0 (Vec3.dot nhit (Vec3.normalize m (Vec3.sub light.center phit)))))
          light.emissionColor := by
  unfold lightTerm
  simp only [h]
  simp [Vec3.mul, Vec3.scale, Vec3.splat]

/-- The value of `trace` when the body hit is diffuse or the depth is `MAX_RAY_DEPTH` or
more. -/
theorem trace_diffuse (m : CMath F) (spheres : List (SphereObj F)) (rayorig raydir : Vec3 F)
    (depth : Int) (tnear : F) (idx : Nat) (sphere : SphereObj F)
    (hhit : nearestHit m rayorig raydir spheres = (tnear, some (idx, sphere)))
    (hdiffuse : ¬ ((sphere.transparency > 0 ∨ sphere.reflection > 0)
      ∧ depth < MAX_RAY_DEPTH)) :
    trace m rayorig raydir spheres depth
      = (Vec3.add
          (diffuseLoop m spheres sphere (Vec3.add rayorig (Vec3.scale raydir tnear))
            (hitNormal m raydir (Vec3.add rayorig (Vec3.scale raydir tnear)) sphere.center).1
            0 spheres (Vec3.splat 0))
          sphere.emissionColor, []) := by
  have h := trace_unfold m rayorig raydir spheres depth
  unfold traceStep at h
  rw [hhit] at h
  simp only [if_neg hdiffuse] at h
  exact Option.some.inj h

/-- The shadow loop from index 0 finds nothing exactly when no body other than the light
`i` intersects the shadow ray. -/
theorem shadowLoop_zero_eq_false_iff (m : CMath F) (i : Nat) (orig lightDirection : Vec3 F)
    (l : List (SphereObj F)) :
    shadowLoop m i orig lightDirection 0 l = false ↔
      ∀ j b, l[j]? = some b → i ≠ j → intersect m b orig lightDirection = none := by
  rw [shadowLoop_eq_false_iff]
  simp only [Nat.zero_add]

/-- C13, amended. In the diffuse branch of `trace`, on the hit body `sphere` at `phit`
with normal `nhit`, for every body `light` of the scene `pre ++ light :: post`, the hit
body included: if `light.emissionColor.x > 0` and no body other than `light` intersects
its shadow ray from `phit + nhit * bias`, the returned color is the sum of what the bodies
before it add, of `surfaceColor * max(0, nhit . lightDir) * lightEmission`, of what the
bodies after it add, and of the emission of the hit body; if `light.emissionColor.x ≤ 0`,
whatever its other channels, the term of `light` is absent from that sum. -/
theorem trace_diffuse_light_adds (m : CMath F) (pre post : List (SphereObj F))
    (light sphere : SphereObj F) (rayorig raydir : Vec3 F) (depth : Int) (tnear : F)
    (idx : Nat) (phit nhit : Vec3 F)
    (hhit : nearestHit m rayorig raydir (pre ++ light :: post) = (tnear, some (idx, sphere)))
    (hdiffuse : ¬ ((sphere.transparency > 0 ∨ sphere.reflection > 0)
      ∧ depth < MAX_RAY_DEPTH))
    (hphit : phit = Vec3.add rayorig (Vec3.scale raydir tnear))
    (hnhit : nhit = (hitNormal m raydir phit sphere.center).1) :
    (light.emissionColor.x > 0 →
      (∀ j b, (pre ++ light :: post)[j]? = some b → pre.length ≠ j →
        intersect m b (Vec3.add phit (Vec3.scale nhit bias))
          (Vec3.normalize m (Vec3.sub light.center phit)) = none) →
      (trace m rayorig raydir (pre ++ light :: post) depth).1
        = Vec3.add
            (Vec3.add
              (Vec3.add
                (diffuseLoop m (pre ++ light :: post) sphere phit nhit 0 pre (Vec3.splat 0))
                (Vec3.mul
                  (Vec3.scale sphere.surfaceColor
                    (max 0 (Vec3.dot nhit (Vec3.normalize m (Vec3.sub light.center phit)))))
                  light.emissionColor))
              (diffuseLoop m (pre ++ light :: post) sphere phit nhit (pre.length + 1) post
                (Vec3.splat 0)))
            sphere.emissionColor)
    ∧ (light.emissionColor.x ≤ 0 →
      (trace m rayorig raydir (pre ++ light :: post) depth).1
        = Vec3.add
            (Vec3.add
              (diffuseLoop m (pre ++ light :: post) sphere phit nhit 0 pre (Vec3.splat 0))
              (diffuseLoop m (pre ++ light :: post) sphere phit nhit (pre.length + 1) post
                (Vec3.splat 0)))
            sphere.emissionColor) := by
  have htrace := trace_diffuse m (pre ++ light :: post) rayorig raydir depth tnear idx sphere
    hhit hdiffuse
  rw [← hphit, ← hnhit] at htrace
  rw [htrace]
  simp only []
  rw [diffuseLoop_append, Nat.zero_add, diffuseLoop]
  constructor
  · intro hlight hclear
    rw [if_pos hlight, diffuseLoop_acc,
      lightTerm_unoccluded m _ sphere phit nhit pre.length light
        ((shadowLoop_zero_eq_false_iff m pre.length _ _ _).2 hclear)]
  · intro hdark
    rw [if_neg (not_lt.2 hdark), diffuseLoop_acc]

theorem trace_diffuse_light_adds_witness :
    (trace qmath ⟨0, 0, -3⟩ ⟨0, 0, -1⟩ ([diffuseTarget] ++ originLight :: []) 0).1
      = Vec3.add
          (Vec3.add
            (Vec3.add
              (diffuseLoop qmath ([diffuseTarget] ++ originLight :: []) diffuseTarget
                ⟨0, 0, -4⟩ ⟨0, 0, 1⟩ 0 [diffuseTarget] (Vec3.splat 0))
              (Vec3.mul
                (Vec3.scale diffuseTarget.surfaceColor
                  (max 0 (Vec3.dot ⟨0, 0, 1⟩
                    (Vec3.normalize qmath (Vec3.sub originLight.center ⟨0, 0, -4⟩)))))
                originLight.emissionColor))
            (diffuseLoop qmath ([diffuseTarget] ++ originLight :: []) diffuseTarget
              ⟨0, 0, -4⟩ ⟨0, 0, 1⟩ ([diffuseTarget].length + 1) [] (Vec3.splat 0)))
          diffuseTarget.emissionColor :=
  (trace_diffuse_light_adds qmath [diffuseTarget] [] originLight diffuseTarget
    ⟨0, 0, -3⟩ ⟨0, 0, -1⟩ 0 1 0 ⟨0, 0, -4⟩ ⟨0, 0, 1⟩
    (by decide!) (by decide!) (by decide!) (by decide!)).1 (by decide!)
    ((shadowLoop_zero_eq_false_iff qmath 1 _ _ _).1 (by decide!))

/-- C13 as stated fails. A ray along `-z` from `(0, 0, -3)` meets the diffuse white sphere
at `(0, 0, -4)`, facing a body at the origin whose emission `(0, 1, 0)` is non-zero, with
nothing on its shadow ray: the claim has `surfaceColor * max(0, nhit . lightDir) *
lightEmission = (0, 1, 0)` added, and `trace` returns `(0, 0, 0)`. -/
theorem trace_green_light_counterexample :
    nearestHit qmath ⟨0, 0, -3⟩ ⟨0, 0, -1⟩ [diffuseTarget, greenLight]
        = (1, some (0, diffuseTarget))
      ∧ hitNormal qmath ⟨0, 0, -1⟩ ⟨0, 0, -4⟩ diffuseTarget.center = (⟨0, 0, 1⟩, false)
      ∧ greenLight.emissionColor = ⟨0, 1, 0⟩
      ∧ shadowLoop qmath 1 (Vec3.add ⟨0, 0, -4⟩ (Vec3.scale ⟨0, 0, 1⟩ bias))
          (Vec3.normalize qmath (Vec3.sub greenLight.center ⟨0, 0, -4⟩)) 0
          [diffuseTarget, greenLight] = false
      ∧ Vec3.mul
          (Vec3.scale diffuseTarget.surfaceColor
            (max 0 (Vec3.dot ⟨0, 0, 1⟩
              (Vec3.normalize qmath (Vec3.sub greenLight.center ⟨0, 0, -4⟩)))))
          greenLight.emissionColor = ⟨0, 1, 0⟩
      ∧ trace qmath ⟨0, 0, -3⟩ ⟨0, 0, -1⟩ [diffuseTarget, greenLight] 0
          = (⟨0, 0, 0⟩, []) := by
  decide!

end DiffuseLights

/-! ## A light seen from outside -/

section EmitterFromOutside

variable {F : Type} [LinearOrderedField F]

theorem Vec3.length2_neg (v : Vec3 F) : Vec3.length2 (Vec3.neg v) = Vec3.length2 v := by
  simp [Vec3.length2, Vec3.neg]

theorem Vec3.length2_nonneg (v : Vec3 F) : 0 ≤ Vec3.length2 v := by
  unfold Vec3.length2
  nlinarith [mul_self_nonneg v.x, mul_self_nonneg v.y, mul_self_nonneg v.z]

/-- The vectors that `normalize` makes of `v` and of `-v` do not point to the same side,
whatever `sqrt` returns: both are scaled by the same factor. -/
theorem Vec3.dot_normalize_neg_nonpos (m : CMath F) (v : Vec3 F) :
    Vec3.dot (Vec3.normalize m v) (Vec3.normalize m (Vec3.neg v)) ≤ 0 := by
  have h2 := Vec3.length2_nonneg v
  unfold Vec3.normalize
  simp only [Vec3.length2_neg]
  split_ifs with h
  · simp only [Vec3.dot, Vec3.neg]
    generalize 1 / m.sqrt (Vec3.length2 v) = c
    have h4 := mul_nonneg h2 (mul_self_nonneg c)
    unfold Vec3.length2 at h4
    linarith
  · simp only [Vec3.dot, Vec3.neg]
    unfold Vec3.length2 at h2
    linarith

/-- The light term of a body at a point of its own surface that is hit from outside is
zero: the direction to its center is opposite to the normal. -/
theorem lightTerm_self_of_outside (m : CMath F) (spheres : List (SphereObj F))
    (sphere s : SphereObj F) (raydir phit : Vec3 F) (i : Nat)
    (houtside : (hitNormal m raydir phit s.center).2 = false) :
    lightTerm m spheres sphere phit (hitNormal m raydir phit s.center).1 i s = ⟨0, 0, 0⟩ := by
  apply lightTerm_of_dot_nonpos
  have hn : (hitNormal m raydir phit s.center).1
      = Vec3.normalize m (Vec3.sub phit s.center) := by
    unfold hitNormal at houtside ⊢
    by_cases h : Vec3.dot raydir (Vec3.normalize m (Vec3.sub phit s.center)) > 0
    · simp [h] at houtside
    · simp [h]
  have hs : Vec3.sub s.center phit = Vec3.neg (Vec3.sub phit s.center) := by
    simp [Vec3.sub, Vec3.neg]
  rw [hn, hs]
  exact Vec3.dot_normalize_neg_nonpos m _

/-- The loop over the lights leaves `surfaceColor` as it is when the term of every light
is zero. -/
theorem diffuseLoop_of_zero_terms (m : CMath F) (spheres : List (SphereObj F))
    (sphere : SphereObj F) (phit nhit : Vec3 F) :
    ∀ (l : List (SphereObj F)) (i : Nat) (acc : Vec3 F),
      (∀ (k : Nat) (b : SphereObj F), l[k]? = some b → b.emissionColor.x > 0 →
        lightTerm m spheres sphere phit nhit (i + k) b = ⟨0, 0, 0⟩) →
      diffuseLoop m spheres sphere phit nhit i l acc = acc
  | [], i, acc, _ => by rw [diffuseLoop]
  | b :: l, i, acc, h => by
    have hrest : ∀ (k : Nat) (b2 : SphereObj F), l[k]? = some b2 → b2.emissionColor.x > 0 →
        lightTerm m spheres sphere phit nhit (i + 1 + k) b2 = ⟨0, 0, 0⟩ := by
      intro k b2 hk hb2
      have := h (k + 1) b2 (by simpa using hk) hb2
      rwa [show i + (k + 1) = i + 1 + k by omega] at this
    rw [diffuseLoop]
    split_ifs with hb
    · have h0 := h 0 b (by simp) hb
      rw [Nat.add_zero] at h0
      rw [h0, Vec3.add_zero_vec]
      exact diffuseLoop_of_zero_terms m spheres sphere phit nhit l (i + 1) acc hrest
    · exact diffuseLoop_of_zero_terms m spheres sphere phit nhit l (i + 1) acc hrest

/-- C4, amended. For a sphere `s` of the scene `pre ++ s :: post` that is neither
transparent nor reflective, and every ray on which the scan of `trace` selects `s` (the
distance that `intersect` reports being below `INFINITY`) and hits it from outside: the
sphere adds no diffuse contribution from itself, `trace` at depth 0 returns the emission
color of `s` added to what the loop over the lights accumulates from the other bodies, in
the order of the list, and makes no nested call; it returns exactly the emission color of
`s` when the term of every other light is zero. -/
theorem trace_emitter_from_outside (m : CMath F) (pre post : List (SphereObj F))
    (s : SphereObj F) (rayorig raydir : Vec3 F) (tnear : F) (idx : Nat) (phit nhit : Vec3 F)
    (hhit : nearestHit m rayorig raydir (pre ++ s :: post) = (tnear, some (idx, s)))
    (hdiffuse : s.transparency ≤ 0 ∧ s.reflection ≤ 0)
    (hphit : phit = Vec3.add rayorig (Vec3.scale raydir tnear))
    (hnhit : nhit = (hitNormal m raydir phit s.center).1)
    (houtside : (hitNormal m raydir phit s.center).2 = false) :
    lightTerm m (pre ++ s :: post) s phit nhit pre.length s = ⟨0, 0, 0⟩
    ∧ trace m rayorig raydir (pre ++ s :: post) 0
      = (Vec3.add
          (diffuseLoop m (pre ++ s :: post) s phit nhit (pre.length + 1) post
            (diffuseLoop m (pre ++ s :: post) s phit nhit 0 pre (Vec3.splat 0)))
          s.emissionColor, [])
    ∧ ((∀ (j : Nat) (b : SphereObj F), (pre ++ s :: post)[j]? = some b → j ≠ pre.length →
          b.emissionColor.x > 0 →
          lightTerm m (pre ++ s :: post) s phit nhit j b = ⟨0, 0, 0⟩) →
        trace m rayorig raydir (pre ++ s :: post) 0 = (s.emissionColor, [])) := by
  have hcond : ¬ ((s.transparency > 0 ∨ s.reflection > 0) ∧ (0 : Int) < MAX_RAY_DEPTH) := by
    rintro ⟨h | h, _⟩
    · exact absurd h (not_lt.2 hdiffuse.1)
    · exact absurd h (not_lt.2 hdiffuse.2)
  have htrace := trace_diffuse m (pre ++ s :: post) rayorig raydir 0 tnear idx s hhit hcond
  rw [← hphit, ← hnhit] at htrace
  have hself : ∀ i, lightTerm m (pre ++ s :: post) s phit nhit i s = ⟨0, 0, 0⟩ := by
    intro i
    rw [hnhit]
    exact lightTerm_self_of_outside m _ s s raydir phit i houtside
  have hloop : diffuseLoop m (pre ++ s :: post) s phit nhit 0 (pre ++ s :: post) (Vec3.splat 0)
      = diffuseLoop m (pre ++ s :: post) s phit nhit (pre.length + 1) post
          (diffuseLoop m (pre ++ s :: post) s phit nhit 0 pre (Vec3.splat 0)) := by
    rw [diffuseLoop_append, Nat.zero_add, diffuseLoop]
    split_ifs with hl
    · rw [hself, Vec3.add_zero_vec]
    · rfl
  rw [hloop] at htrace
  refine ⟨hself _, htrace, ?_⟩
  intro hz
  rw [htrace]
  have hpre : diffuseLoop m (pre ++ s :: post) s phit nhit 0 pre (Vec3.splat 0)
      = Vec3.splat 0 := by
    apply diffuseLoop_of_zero_terms
    intro k b hk hb
    have hlt : k < pre.length := by
      by_contra hge
      rw [List.getElem?_eq_none (not_lt.1 hge)] at hk
      exact absurd hk (by simp)
    rw [Nat.zero_add]
    exact hz k b (by rw [List.getElem?_append_left hlt]; exact hk) (by omega) hb
  have hpost : diffuseLoop m (pre ++ s :: post) s phit nhit (pre.length + 1) post
      (Vec3.splat 0) = Vec3.splat 0 := by
    apply diffuseLoop_of_zero_terms
    intro k b hk hb
    refine hz (pre.length + 1 + k) b ?_ (by omega) hb
    rw [List.getElem?_append_right (by omega)]
    rw [show pre.length + 1 + k - pre.length = k + 1 by omega]
    simpa using hk
  rw [hpre, hpost, Vec3.zero_add_vec]

theorem trace_emitter_from_outside_witness :
    trace qmath ⟨0, 0, 0⟩ ⟨0, 0, -1⟩ ([plainSphere ⟨0, 3, -5⟩ 1] ++ diffuseLight :: [backLight]) 0
        = (⟨1, 1, 1⟩, [])
      ∧ trace qmath ⟨0, 0, 0⟩ ⟨0, 0, -1⟩ ([] ++ diffuseLight :: [secondLight]) 0
        = (⟨3 / 2, 3 / 2, 3 / 2⟩, []) :=
  ⟨(trace_emitter_from_outside qmath [plainSphere ⟨0, 3, -5⟩ 1] [backLight] diffuseLight
      ⟨0, 0, 0⟩ ⟨0, 0, -1⟩ 4 1 ⟨0, 0, -4⟩ ⟨0, 0, 1⟩
      (by decide!) (by decide!) (by decide!) (by decide!) (by decide!)).2.1.trans (by decide!),
   (trace_emitter_from_outside qmath [] [secondLight] diffuseLight
      ⟨0, 0, 0⟩ ⟨0, 0, -1⟩ 4 0 ⟨0, 0, -4⟩ ⟨0, 0, 1⟩
      (by decide!) (by decide!) (by decide!) (by decide!) (by decide!)).2.1.trans (by decide!)⟩

/-- C4 as stated fails. A ray from the origin along `-z` has unit length, starts outside
the light sphere of radius 1 whose center it points at, and intersects no other body.  When
the sphere, at `(0, 0, -5)`, is the only body and is reflective, `trace` at depth 0 adds
the reflected background to the emission `(1, 1, 1)`; when it is diffuse and a second light
stands behind the ray origin, `trace` adds the light received from that light; and when the
sphere is the only body, diffuse, at `(0, 0, -2e8)`, beyond `INFINITY = 1e8`, the scan does
not select it and `trace` returns the background color. -/
theorem trace_center_of_light_counterexample :
    (reflectiveLight.emissionColor = ⟨1, 1, 1⟩
      ∧ Vec3.length2 (⟨0, 0, -1⟩ : Vec3 ℚ) = 1
      ∧ reflectiveLight.center = Vec3.add ⟨0, 0, 0⟩ (Vec3.scale ⟨0, 0, -1⟩ 5)
      ∧ reflectiveLight.radius < 5
      ∧ trace qmath ⟨0, 0, 0⟩ ⟨0, 0, -1⟩ [reflectiveLight] 0
          = (⟨6 / 5, 6 / 5, 6 / 5⟩, [⟨RayKind.reflection, 1⟩]))
    ∧ (diffuseLight.emissionColor = ⟨1, 1, 1⟩
      ∧ diffuseLight.center = Vec3.add ⟨0, 0, 0⟩ (Vec3.scale ⟨0, 0, -1⟩ 5)
      ∧ diffuseLight.radius < 5
      ∧ intersect qmath secondLight ⟨0, 0, 0⟩ ⟨0, 0, -1⟩ = none
      ∧ trace qmath ⟨0, 0, 0⟩ ⟨0, 0, -1⟩ [diffuseLight, secondLight] 0
          = (⟨3 / 2, 3 / 2, 3 / 2⟩, []))
    ∧ (farLight.emissionColor = ⟨1, 1, 1⟩
      ∧ farLight.center = Vec3.add ⟨0, 0, 0⟩ (Vec3.scale ⟨0, 0, -1⟩ 200000000)
      ∧ farLight.radius < 200000000
      ∧ (nearestHit qmath ⟨0, 0, 0⟩ ⟨0, 0, -1⟩ [farLight]).2 = none
      ∧ trace qmath ⟨0, 0, 0⟩ ⟨0, 0, -1⟩ [farLight] 0 = (⟨2, 2, 2⟩, [])) := by
  decide!

end EmitterFromOutside

/-! ## The body selected by the scan -/

section Selection

variable {F : Type} [LinearOrderedField F]

/-- Two equal spheres at the same place: the scan selects the one at index 0.  A nearer
sphere later in the list is selected instead. -/
theorem nearestHit_examples :
    nearestHit qmath ⟨0, 0, 0⟩ ⟨0, 0, -1⟩ [diffuseTarget, diffuseLight]
        = (4, some (0, diffuseTarget))
      ∧ nearestHit qmath ⟨0, 0, 0⟩ ⟨0, 0, -1⟩
          [diffuseTarget, plainSphere ⟨0, 0, -2⟩ (1 / 2), diffuseLight]
        = (3 / 2, some (1, plainSphere ⟨0, 0, -2⟩ (1 / 2))) := by
  decide!

end Selection

end RayTracer
